import Mathlib

/-!
Shallow embedding of sim.c: a cycle-accurate simulator of four pipelined cores
with private direct-mapped write-back caches, kept coherent by a MESI snooping
bus with round-robin arbitration against a flat main memory.

Machine integers are modelled as Nat with explicit reductions mod 2^w (and Int
for the signed views used by the ALU and branch compares).  Fixed-size C arrays
(register file, caches, main memory, the 8-word bus block buffer) are modelled
as functions from Nat; the simulator only ever reads them inside their bounds.
File I/O, tracing and the command line are outside the embedded core.
-/

set_option maxHeartbeats 1000000
set_option maxRecDepth 8000

namespace Sim

-- MESI states (sim.c lines 33-37)
def MESI_I : Nat := 0
def MESI_S : Nat := 1
def MESI_E : Nat := 2
def MESI_M : Nat := 3

-- Bus command values (sim.c lines 27-31)
def BUS_NONE : Nat := 0
def BUS_RD : Nat := 1
def BUS_RDX : Nat := 2
def BUS_FLUSH : Nat := 3

-- Opcodes (sim.c lines 39-60)
def OP_ADD : Nat := 0
def OP_SUB : Nat := 1
def OP_AND : Nat := 2
def OP_OR : Nat := 3
def OP_XOR : Nat := 4
def OP_MUL : Nat := 5
def OP_SLL : Nat := 6
def OP_SRA : Nat := 7
def OP_SRL : Nat := 8
def OP_BEQ : Nat := 9
def OP_BNE : Nat := 10
def OP_BLT : Nat := 11
def OP_BGT : Nat := 12
def OP_BLE : Nat := 13
def OP_BGE : Nat := 14
def OP_JAL : Nat := 15
def OP_LW : Nat := 16
def OP_SW : Nat := 17
def OP_HALT : Nat := 20

/-- sign_extend (sim.c lines 176-183): the low `bits` bits of `val`, viewed as a
two's-complement signed integer. -/
def sign_extend (val : Nat) (bits : Nat) : Int :=
  let m := val % 2 ^ bits
  if 2 ^ (bits - 1) ≤ m then (m : Int) - 2 ^ bits else (m : Int)

/-- The C cast (uint32_t) of a signed value: reduce mod 2^32 into 0..2^32-1. -/
def to_uint32 (x : Int) : Nat := (x % 2 ^ 32).toNat

/-- The C cast (int32_t) of a 32-bit pattern stored as a Nat. -/
def to_int32 (x : Nat) : Int :=
  if x % 2 ^ 32 < 2 ^ 31 then (x % 2 ^ 32 : Nat) else (x % 2 ^ 32 : Nat) - 2 ^ 32

structure Instruction where
  raw : Nat
  op : Nat
  rd : Nat
  rs : Nat
  rt : Nat
  imm : Int
  pc : Nat
deriving DecidableEq

/-- decode_inst (sim.c lines 185-196): opcode bits 31:24, rd 23:20, rs 19:16,
rt 15:12, immediate 11:0 sign-extended. -/
def decode_inst (raw : Nat) (pc : Nat) : Instruction :=
  { raw := raw
    op := raw / 2 ^ 24 % 2 ^ 8
    rd := raw / 2 ^ 20 % 2 ^ 4
    rs := raw / 2 ^ 16 % 2 ^ 4
    rt := raw / 2 ^ 12 % 2 ^ 4
    imm := sign_extend (raw % 2 ^ 12) 12
    pc := pc }

/-- The all-zero instruction record, matching C's zero initialization. -/
def inst0 : Instruction := decode_inst 0 0

/-- dest_reg (sim.c lines 198-209): architectural destination register, or none
(C returns -1). -/
def dest_reg (inst : Instruction) : Option Nat :=
  if inst.op = OP_HALT ∨ inst.op = OP_SW then none
  else if OP_BEQ ≤ inst.op ∧ inst.op ≤ OP_BGE then none
  else if inst.op = OP_JAL then some 15
  else if inst.rd ≤ 1 then none
  else some inst.rd

/-- source_regs (sim.c lines 211-237): source register indices used for hazard
detection, in the order the C code emits them. -/
def source_regs (inst : Instruction) : List Nat :=
  if inst.op ≤ OP_SRL ∨ inst.op = OP_LW then [inst.rs, inst.rt]
  else if inst.op = OP_SW then [inst.rd, inst.rs, inst.rt]
  else if OP_BEQ ≤ inst.op ∧ inst.op ≤ OP_BGE then [inst.rs, inst.rt, inst.rd]
  else if inst.op = OP_JAL then [inst.rd]
  else []

/-- perform_compare (sim.c lines 523-533): signed 32-bit comparison for the six
conditional branches. -/
def perform_compare (inst : Instruction) (rs rt : Nat) : Bool :=
  let a := to_int32 rs
  let b := to_int32 rt
  if inst.op = OP_BEQ then decide (a = b)
  else if inst.op = OP_BNE then decide (a ≠ b)
  else if inst.op = OP_BLT then decide (a < b)
  else if inst.op = OP_BGT then decide (b < a)
  else if inst.op = OP_BLE then decide (a ≤ b)
  else if inst.op = OP_BGE then decide (b ≤ a)
  else false

/-- perform_alu (sim.c lines 535-550).  Arithmetic is int32 two's-complement
wrap cast back to uint32; shifts mask the amount to 5 bits; SRA (arithmetic
right shift) is floor division of the signed value. -/
def perform_alu (inst : Instruction) (rs rt : Nat) : Nat :=
  let shift := rt % 2 ^ 5
  if inst.op = OP_ADD then to_uint32 (to_int32 rs + to_int32 rt)
  else if inst.op = OP_SUB then to_uint32 (to_int32 rs - to_int32 rt)
  else if inst.op = OP_AND then rs % 2 ^ 32 &&& rt % 2 ^ 32
  else if inst.op = OP_OR then rs % 2 ^ 32 ||| rt % 2 ^ 32
  else if inst.op = OP_XOR then rs % 2 ^ 32 ^^^ rt % 2 ^ 32
  else if inst.op = OP_MUL then to_uint32 (to_int32 rs * to_int32 rt)
  else if inst.op = OP_SLL then rs % 2 ^ 32 * 2 ^ shift % 2 ^ 32
  else if inst.op = OP_SRA then to_uint32 (Int.fdiv (to_int32 rs) (2 ^ shift))
  else if inst.op = OP_SRL then rs % 2 ^ 32 / 2 ^ shift
  else if inst.op = OP_JAL then (inst.pc + 1) % 2 ^ 10
  else 0

-- ---------- Cache ----------

/-- Per-core cache (sim.c lines 110-115): 512 data words, 64 tags, 64 MESI
states.  DSRAM/TSRAM are read only at indices below those bounds. -/
structure Cache where
  data : Nat → Nat
  tag : Nat → Nat
  state : Nat → Nat

/-- cache_index (sim.c lines 332-334): (addr >> 3) & 0x3F, i.e. bits 8:3. -/
def cache_index (addr : Nat) : Nat := addr / 2 ^ 3 % 2 ^ 6

/-- cache_tag (sim.c lines 336-338): (addr >> 9) & 0x7FF (TAG_BITS = 11),
i.e. bits 19:9 of a 20-bit word address. -/
def cache_tag (addr : Nat) : Nat := addr / 2 ^ 9 % 2 ^ 11

/-- line_base_addr (sim.c lines 340-342): ((tag & 0x7FF) << 9) | (idx << 3).
The two fields occupy disjoint bit ranges (idx < 64 at every call site), so the
C bitwise-or is addition. -/
def line_base_addr (tag idx : Nat) : Nat := tag % 2 ^ 11 * 2 ^ 9 + idx * 2 ^ 3

/-- addr & ~(BLOCK_WORDS-1): clear the 3 offset bits (addr is a uint32). -/
def block_base (addr : Nat) : Nat := addr / 8 * 8

/-- The 8-word store loop of writeback_line / complete_transaction: write
words blk 0 .. blk 7 to main memory at (base+i) & (2^20 - 1). -/
def write_block (mem : Nat → Nat) (base : Nat) (blk : Nat → Nat) : Nat → Nat :=
  (List.range 8).foldl (fun m j => Function.update m ((base + j) % 2 ^ 20) (blk j)) mem

/-- writeback_line (sim.c lines 344-353): copy a dirty (M) block to memory at
its base address; no effect otherwise. -/
def writeback_line (c : Cache) (idx : Nat) (mem : Nat → Nat) : Nat → Nat :=
  if c.state idx = MESI_M then
    write_block mem (line_base_addr (c.tag idx) idx) (fun j => c.data (idx * 8 + j))
  else mem

/-- fill_cache_line (sim.c lines 355-362): write back the resident line if
dirty, then overwrite the 8 data words, the tag (masked to TAG_BITS = 11 bits)
and the state. -/
def fill_cache_line (c : Cache) (idx tagv : Nat) (blk : Nat → Nat) (new_state : Nat)
    (mem : Nat → Nat) : Cache × (Nat → Nat) :=
  let mem1 := writeback_line c idx mem
  ({ data := (List.range 8).foldl (fun d j => Function.update d (idx * 8 + j) (blk j)) c.data
     tag := Function.update c.tag idx (tagv % 2 ^ 11)
     state := Function.update c.state idx new_state }, mem1)

/-- cache_lookup (sim.c lines 364-374): tag hit iff state ≠ I and tags match.
Returns the line state on a hit; the caller's initial MESI_I otherwise. -/
def cache_lookup (c : Cache) (addr : Nat) : Bool × Nat :=
  if c.state (cache_index addr) ≠ MESI_I ∧ c.tag (cache_index addr) = cache_tag addr then
    (true, c.state (cache_index addr))
  else (false, MESI_I)

/-- cache_read (sim.c lines 376-380). -/
def cache_read (c : Cache) (addr : Nat) : Nat :=
  c.data (cache_index addr * 8 + addr % 8)

/-- cache_write (sim.c lines 382-386). -/
def cache_write (c : Cache) (addr : Nat) (v : Nat) : Cache :=
  { c with data := Function.update c.data (cache_index addr * 8 + addr % 8) v }

-- ---------- Pipeline latches and core state ----------

structure FetchStage where
  valid : Bool
  inst : Instruction

structure DecodeStage where
  valid : Bool
  inst : Instruction

structure ExecStage where
  valid : Bool
  inst : Instruction
  rs_val : Nat
  rt_val : Nat
  rd_val : Nat

structure MemStage where
  valid : Bool
  inst : Instruction
  alu_result : Nat
  mem_addr : Nat
  store_data : Nat
  is_load : Bool
  is_store : Bool
  miss : Bool
  waiting : Bool
  request_queued : Bool
  load_value : Nat

structure WbStage where
  valid : Bool
  inst : Instruction
  value : Nat

structure Stats where
  cycles : Nat
  instructions : Nat
  read_hit : Nat
  write_hit : Nat
  read_miss : Nat
  write_miss : Nat
  decode_stall : Nat
  mem_stall : Nat

structure Core where
  id : Nat
  imem : Nat → Nat
  regs : Nat → Nat
  pc : Nat
  redirect_pending : Bool
  redirect_pc : Nat
  stop_fetch : Bool
  halted : Bool
  done : Bool
  fetch : FetchStage
  decode : DecodeStage
  exec : ExecStage
  mem : MemStage
  wb : WbStage
  cache : Cache
  stats : Stats

-- ---------- Bus state ----------

structure BusRequest where
  active : Bool
  cmd : Nat
  addr : Nat
  origin : Nat

structure BusState where
  phase : Nat        -- 0 idle, 1 wait (memory latency), 2 flush
  cmd : Nat          -- BUS_RD or BUS_RDX for the current transaction
  origin : Nat
  addr : Nat         -- requested word address
  shared : Nat
  provider : Int     -- -1 none yet, 0-3 cache, 4 memory
  block : Nat → Nat  -- 8-word staged block
  delay : Nat
  index : Nat
  bus_cmd_out : Nat
  bus_origid_out : Int
  bus_addr_out : Nat
  bus_data_out : Nat
  bus_shared_out : Nat

/-- reset_bus_out (sim.c lines 390-396). -/
def reset_bus_out (bus : BusState) : BusState :=
  { bus with bus_cmd_out := BUS_NONE, bus_origid_out := 0, bus_addr_out := 0,
             bus_data_out := 0, bus_shared_out := 0 }

/-- complete_transaction (sim.c lines 398-417): after the 8th flush word, write
the staged block to main memory, fill the requester's line (with writeback of a
dirty victim), and clear the requester's Memory-stage waiting flag. -/
def complete_transaction (bus : BusState) (cores : Fin 4 → Core) (mem : Nat → Nat) :
    (Fin 4 → Core) × (Nat → Nat) :=
  if h : bus.origin < 4 then
    let base := block_base bus.addr
    let mem1 := write_block mem base bus.block
    let o : Fin 4 := ⟨bus.origin, h⟩
    let c := cores o
    let new_state := if bus.cmd = BUS_RD then (if bus.shared ≠ 0 then MESI_S else MESI_E)
                     else MESI_M
    let fc := fill_cache_line c.cache (cache_index base) (cache_tag base) bus.block new_state mem1
    let mem_latch := if c.mem.valid && c.mem.waiting then { c.mem with waiting := false }
                     else c.mem
    (Function.update cores o { c with cache := fc.1, mem := mem_latch }, fc.2)
  else (cores, mem)

/-- Accumulator threaded through the snoop loop of start_bus_transaction:
the shared flag, the provider id, and the staged provider block. -/
structure SnoopAcc where
  shared : Nat
  provider : Int
  block : Nat → Nat

/-- apply_snoop (sim.c lines 419-444): one peer cache's reaction to a new bus
transaction.  A cache holding the block in M stages its data and becomes the
provider; M/E drop to S on BusRd and to I otherwise; S drops to I on BusRdX. -/
def apply_snoop (cache : Cache) (cache_id origin cmd addr : Nat) (acc : SnoopAcc) :
    Cache × SnoopAcc :=
  if cache_id = origin then (cache, acc)
  else
    let idx := cache_index addr
    let t := cache_tag addr
    let st := cache.state idx
    if st = MESI_I ∨ cache.tag idx ≠ t then (cache, acc)
    else
      let acc1 := { acc with shared := 1 }
      let st' := if cmd = BUS_RD then MESI_S else MESI_I
      if st = MESI_M then
        ({ cache with state := Function.update cache.state idx st' },
         { shared := 1, provider := (cache_id : Int), block := fun j => cache.data (idx * 8 + j) })
      else if st = MESI_E then
        ({ cache with state := Function.update cache.state idx st' }, acc1)
      else if st = MESI_S ∧ cmd = BUS_RDX then
        ({ cache with state := Function.update cache.state idx MESI_I }, acc1)
      else (cache, acc1)

/-- start_bus_transaction (sim.c lines 446-482): snapshot the request, snoop
the four caches in id order, pick the data source (peer cache or memory, the
latter with a 16-cycle latency), and drive the command on the bus outputs. -/
def start_bus_transaction (bus : BusState) (req : BusRequest) (cores : Fin 4 → Core)
    (mem : Nat → Nat) : BusState × (Fin 4 → Core) :=
  let r0 := apply_snoop (cores 0).cache 0 req.origin req.cmd req.addr
              { shared := 0, provider := -1, block := fun _ => 0 }
  let r1 := apply_snoop (cores 1).cache 1 req.origin req.cmd req.addr r0.2
  let r2 := apply_snoop (cores 2).cache 2 req.origin req.cmd req.addr r1.2
  let r3 := apply_snoop (cores 3).cache 3 req.origin req.cmd req.addr r2.2
  let newCache : Fin 4 → Cache := fun i =>
    if i = 0 then r0.1 else if i = 1 then r1.1 else if i = 2 then r2.1 else r3.1
  let cores' : Fin 4 → Core := fun i => { cores i with cache := newCache i }
  let acc := r3.2
  let src : Int × (Nat → Nat) × Nat :=
    if acc.provider = -1 then
      ((4 : Int), fun j => mem ((block_base req.addr + j) % 2 ^ 20), 16)
    else (acc.provider, acc.block, 0)
  ({ bus with cmd := req.cmd, origin := req.origin, addr := req.addr, shared := acc.shared,
              provider := src.1, block := src.2.1, delay := src.2.2, index := 0, phase := 1,
              bus_cmd_out := req.cmd, bus_origid_out := (req.origin : Int),
              bus_addr_out := req.addr % 2 ^ 20, bus_data_out := 0,
              bus_shared_out := acc.shared }, cores')

-- ---------- Per-cycle core logic ----------

/-- The WB commit phase of the cycle (sim.c lines 602-613): write the register
file, count the retired instruction, raise halted on HALT. -/
def wb_commit (c : Core) : Core :=
  if c.wb.valid then
    { c with
      regs := match dest_reg c.wb.inst with
              | some d => Function.update c.regs d c.wb.value
              | none => c.regs
      stats := { c.stats with instructions := c.stats.instructions + 1 }
      halted := c.halted || decide (c.wb.inst.op = OP_HALT) }
  else c

/-- The decode-stage hazard check (sim.c lines 728-742): a source register
s ≥ 2 conflicts with any valid in-flight instruction whose dest_reg is s. -/
def hazard_on (c : Core) (inst : Instruction) : Bool :=
  (source_regs inst).any fun r =>
    decide (2 ≤ r) &&
      ((c.exec.valid && decide (dest_reg c.exec.inst = some r)) ||
       (c.mem.valid && decide (dest_reg c.mem.inst = some r)) ||
       (c.wb.valid && decide (dest_reg c.wb.inst = some r)))

/-- Result of the Memory-stage logic for one cycle. -/
structure MemStageOut where
  next_wb : WbStage
  next_mem : MemStage
  cache : Cache
  stats : Stats
  slot : BusRequest
  mem_advances : Bool

/-- The Memory-stage block (sim.c lines 629-694).  Note that the C code's
`c->mem.request_queued = true` write targets the current latch, which is then
overwritten by `next_mem` at the end of the cycle, so the latched
request_queued keeps its prior value; re-posting is prevented by `waiting`. -/
def mem_stage (c : Core) (stats : Stats) (slot : BusRequest) : MemStageOut :=
  let wb0 : WbStage := { valid := false, inst := inst0, value := 0 }
  if c.mem.valid then
    if c.mem.waiting then
      { next_wb := wb0, next_mem := c.mem, cache := c.cache,
        stats := { stats with mem_stall := stats.mem_stall + 1 }, slot := slot,
        mem_advances := false }
    else
      let inst := c.mem.inst
      if inst.op = OP_LW ∨ inst.op = OP_SW then
        let counted := c.mem.miss
        let lk := cache_lookup c.cache c.mem.mem_addr
        let stats1 :=
          if counted then stats
          else if lk.1 ∧ lk.2 ≠ MESI_I then
            (if inst.op = OP_LW then { stats with read_hit := stats.read_hit + 1 }
             else { stats with write_hit := stats.write_hit + 1 })
          else
            (if inst.op = OP_LW then { stats with read_miss := stats.read_miss + 1 }
             else { stats with write_miss := stats.write_miss + 1 })
        if ¬lk.1 ∨ lk.2 = MESI_I ∨ (inst.op = OP_SW ∧ lk.2 = MESI_S) then
          let slot1 :=
            if c.mem.request_queued then slot
            else { active := true, cmd := if inst.op = OP_LW then BUS_RD else BUS_RDX,
                   addr := c.mem.mem_addr % 2 ^ 20, origin := c.id }
          { next_wb := wb0, next_mem := { c.mem with miss := true, waiting := true },
            cache := c.cache, stats := { stats1 with mem_stall := stats1.mem_stall + 1 },
            slot := slot1, mem_advances := false }
        else
          if inst.op = OP_LW then
            let v := cache_read c.cache c.mem.mem_addr
            { next_wb := { valid := true, inst := inst, value := v },
              next_mem := { c.mem with load_value := v, valid := false },
              cache := c.cache, stats := stats1, slot := slot, mem_advances := true }
          else
            let cache1 := cache_write c.cache c.mem.mem_addr c.mem.store_data
            let st2 := Function.update cache1.state (cache_index c.mem.mem_addr) MESI_M
            let cache2 :=
              if lk.2 = MESI_E then { cache1 with state := st2 }
              else cache1
            { next_wb := { valid := true, inst := inst, value := 0 },
              next_mem := { c.mem with valid := false },
              cache := cache2, stats := stats1, slot := slot, mem_advances := true }
      else
        { next_wb := { valid := true, inst := inst, value := c.mem.alu_result },
          next_mem := { c.mem with valid := false },
          cache := c.cache, stats := stats, slot := slot, mem_advances := true }
  else
    { next_wb := wb0, next_mem := c.mem, cache := c.cache, stats := stats, slot := slot,
      mem_advances := false }

/-- Whether the Memory stage lets its instruction advance this cycle (the
`mem_advances` flag of sim.c lines 627-694); independent of the stats and
request-slot inputs of mem_stage. -/
def mem_advances_flag (c : Core) : Bool :=
  c.mem.valid && !c.mem.waiting &&
    (if c.mem.inst.op = OP_LW ∨ c.mem.inst.op = OP_SW then
       let lk := cache_lookup c.cache c.mem.mem_addr
       !(decide (¬lk.1 ∨ lk.2 = MESI_I ∨ (c.mem.inst.op = OP_SW ∧ lk.2 = MESI_S)))
     else true)

/-- exec_free_next (sim.c line 698). -/
def exec_free_flag (c : Core) : Bool :=
  !c.exec.valid || (c.exec.valid && (!c.mem.valid || mem_advances_flag c))

/-- decode_moves (sim.c line 749): Decode holds an instruction, no hazard
stall, and Execute will be free next cycle. -/
def decode_moves_flag (c : Core) : Bool :=
  c.decode.valid && !(hazard_on c c.decode.inst) && exec_free_flag c

/-- One core's share of the pipeline-advance phase (sim.c lines 616-819),
taking the core after WB commit and its bus-request slot; returns the core with
updated latches and the possibly-updated slot. -/
def core_cycle (c : Core) (slot : BusRequest) : Core × BusRequest :=
  let stats0 := if c.done then c.stats else { c.stats with cycles := c.stats.cycles + 1 }
  let m := mem_stage c stats0 slot
  let mem_free_next := !c.mem.valid || m.mem_advances
  let exec_can_move := c.exec.valid && mem_free_next
  let exec_free_next := !c.exec.valid || exec_can_move
  -- EXEC stage (sim.c lines 700-721)
  let em : ExecStage × MemStage :=
    if exec_can_move then
      let inst := c.exec.inst
      let base : MemStage :=
        { valid := true, inst := inst, alu_result := 0, mem_addr := m.next_mem.mem_addr,
          store_data := m.next_mem.store_data, is_load := m.next_mem.is_load,
          is_store := m.next_mem.is_store, miss := false, waiting := false,
          request_queued := false, load_value := 0 }
      if inst.op = OP_LW ∨ inst.op = OP_SW then
        ({ c.exec with valid := false },
         { base with
             mem_addr := to_uint32 (to_int32 c.exec.rs_val + to_int32 c.exec.rt_val) % 2 ^ 20,
             store_data := c.exec.rd_val,
             is_load := decide (inst.op = OP_LW), is_store := decide (inst.op = OP_SW) })
      else
        ({ c.exec with valid := false },
         { base with is_load := false, is_store := false,
                     alu_result := perform_alu inst c.exec.rs_val c.exec.rt_val })
    else (c.exec, m.next_mem)
  -- DECODE stage (sim.c lines 723-783)
  let regsA := if c.decode.valid then Function.update c.regs 1 (to_uint32 c.decode.inst.imm)
               else c.regs
  let decode_stall := c.decode.valid && (hazard_on c c.decode.inst || !exec_free_next)
  let stats1 := if decode_stall then { m.stats with decode_stall := m.stats.decode_stall + 1 }
                else m.stats
  let decode_moves := c.decode.valid && !decode_stall && exec_free_next
  let decode_free_next := !c.decode.valid || decode_moves
  let fetch_moves := c.fetch.valid && decode_free_next
  let dm : ExecStage × (Bool × Nat) × (Nat → Nat) :=
    if decode_moves then
      let inst := c.decode.inst
      let ne : ExecStage :=
        { valid := true, inst := inst, rs_val := regsA inst.rs, rt_val := regsA inst.rt,
          rd_val := regsA inst.rd }
      let rp : Bool × Nat :=
        if OP_BEQ ≤ inst.op ∧ inst.op ≤ OP_BGE then
          (if perform_compare inst (regsA inst.rs) (regsA inst.rt) then
             (true, regsA inst.rd % 2 ^ 10)
           else (c.redirect_pending, c.redirect_pc))
        else if inst.op = OP_JAL then (true, regsA inst.rd % 2 ^ 10)
        else (c.redirect_pending, c.redirect_pc)
      (ne, rp, Function.update regsA 1 (to_uint32 inst.imm))
    else (em.1, (c.redirect_pending, c.redirect_pc), regsA)
  let next_decode0 : DecodeStage :=
    if decode_moves then { c.decode with valid := false }
    else if !decode_stall then { c.decode with valid := false }
    else c.decode
  let next_decode := if fetch_moves then { valid := true, inst := c.fetch.inst } else next_decode0
  -- FETCH stage (sim.c lines 785-809); reads the redirect latch possibly set
  -- by Decode earlier in this same cycle.
  let f : FetchStage × Nat × Bool × Bool :=
    if !c.stop_fetch && decode_free_next then
      if dm.2.1.1 then
        let inst := decode_inst (c.imem dm.2.1.2) dm.2.1.2
        ({ valid := true, inst := inst }, (dm.2.1.2 + 1) % 2 ^ 10, false, c.stop_fetch)
      else
        let inst := decode_inst (c.imem c.pc) c.pc
        ({ valid := true, inst := inst }, (c.pc + 1) % 2 ^ 10, dm.2.1.1,
         c.stop_fetch || decide (inst.op = OP_HALT))
    else if fetch_moves then ({ c.fetch with valid := false }, c.pc, dm.2.1.1, c.stop_fetch)
    else (c.fetch, c.pc, dm.2.1.1, c.stop_fetch)
  let any_valid := f.1.valid || next_decode.valid || dm.1.valid || em.2.valid || m.next_wb.valid
  ({ c with
       wb := m.next_wb, mem := em.2, exec := dm.1, decode := next_decode, fetch := f.1,
       regs := dm.2.2, pc := f.2.1, redirect_pending := f.2.2.1,
       redirect_pc := dm.2.1.2, stop_fetch := f.2.2.2,
       cache := m.cache, stats := stats1,
       done := c.done || (c.halted && !any_valid) }, m.slot)

-- ---------- Bus arbitration, output and timing (sim.c lines 822-870) ----------

/-- The round-robin scan (sim.c lines 824-831): the first active slot at
indices rr_next, rr_next+1, ... mod 4. -/
def arb_choose (requests : Fin 4 → BusRequest) (rr_next : Nat) : Option (Fin 4) :=
  (List.range 4).findSome? fun k =>
    let idx : Fin 4 := ⟨(rr_next + k) % 4, Nat.mod_lt _ (by norm_num)⟩
    if (requests idx).active then some idx else none

/-- The bus-output block (sim.c lines 841-856): during Flush drive the current
staged word; when a memory wait has elapsed, transition to Flush and drive the
first word in the same cycle. -/
def bus_drive (bus : BusState) : BusState :=
  if bus.phase = 2 then
    { bus with bus_cmd_out := BUS_FLUSH, bus_origid_out := bus.provider,
               bus_addr_out := block_base bus.addr + bus.index,
               bus_data_out := bus.block bus.index, bus_shared_out := bus.shared }
  else if bus.phase = 1 ∧ bus.delay = 0 ∧ bus.bus_cmd_out = BUS_NONE then
    { bus with phase := 2, index := 0,
               bus_cmd_out := BUS_FLUSH, bus_origid_out := bus.provider,
               bus_addr_out := block_base bus.addr, bus_data_out := bus.block 0,
               bus_shared_out := bus.shared }
  else bus

/-- The bus timing advance (sim.c lines 861-870): count down memory latency,
or step the flush index and complete the transaction after the 8th word. -/
def bus_advance (bus : BusState) (cores : Fin 4 → Core) (mem : Nat → Nat) :
    BusState × (Fin 4 → Core) × (Nat → Nat) :=
  if bus.phase = 1 ∧ 0 < bus.delay then
    ({ bus with delay := bus.delay - 1 }, cores, mem)
  else if bus.phase = 2 ∧ bus.bus_cmd_out = BUS_FLUSH then
    let bus1 := { bus with index := bus.index + 1 }
    if 8 ≤ bus1.index then
      let cm := complete_transaction bus1 cores mem
      ({ bus1 with phase := 0, cmd := BUS_NONE }, cm.1, cm.2)
    else (bus1, cores, mem)
  else (bus, cores, mem)

-- ---------- Whole-system state and one simulated cycle ----------

structure SimState where
  cores : Fin 4 → Core
  requests : Fin 4 → BusRequest
  bus : BusState
  mem : Nat → Nat
  rr_next : Nat

/-- Cycle phase 1-2: reset the bus outputs and commit Writeback for all cores
(sim.c lines 596-613). -/
def phase_wb (s : SimState) : SimState :=
  { s with cores := fun i => wb_commit (s.cores i), bus := reset_bus_out s.bus }

/-- Cycle phase 3: pipeline next-state computation for all cores; core i may
post into request slot i (sim.c lines 616-820). -/
def phase_pipe (s : SimState) : SimState :=
  { s with cores := fun i => (core_cycle (s.cores i) (s.requests i)).1,
           requests := fun i => (core_cycle (s.cores i) (s.requests i)).2 }

/-- Cycle phase 4: if the bus is idle, pick a requester round-robin,
deactivate its slot, advance the pointer and start the transaction
(sim.c lines 822-839). -/
def phase_arb (s : SimState) : SimState :=
  if s.bus.phase = 0 then
    match arb_choose s.requests s.rr_next with
    | some w =>
        let req := s.requests w
        let sb := start_bus_transaction s.bus req s.cores s.mem
        { s with bus := sb.1, cores := sb.2,
                 requests := Function.update s.requests w { req with active := false },
                 rr_next := ((w : Nat) + 1) % 4 }
    | none => s
  else s

/-- Cycle phase 4b: latch this cycle's bus outputs (sim.c lines 841-856). -/
def phase_drive (s : SimState) : SimState :=
  { s with bus := bus_drive s.bus }

/-- Cycle phase 5: advance bus timing, completing the transaction after the
8th flush word (sim.c lines 861-870). -/
def phase_adv (s : SimState) : SimState :=
  let r := bus_advance s.bus s.cores s.mem
  { s with bus := r.1, cores := r.2.1, mem := r.2.2 }

/-- One iteration of the main simulation loop (sim.c lines 595-885), without
the tracing and termination bookkeeping, in the C code's phase order. -/
def sim_step (s : SimState) : SimState :=
  phase_adv (phase_drive (phase_arb (phase_pipe (phase_wb s))))

-- ---------- Reset state and reachability ----------

/-- Per-core reset (sim.c lines 565-582): zeroed registers and cache (all
lines Invalid), Fetch prefilled with imem[0], pc advanced to 1, stop_fetch
raised if the first instruction is already HALT. -/
def init_core (i : Nat) (imem : Nat → Nat) : Core :=
  let first := decode_inst (imem 0) 0
  { id := i, imem := imem, regs := fun _ => 0, pc := 1,
    redirect_pending := false, redirect_pc := 0,
    stop_fetch := decide (first.op = OP_HALT), halted := false, done := false,
    fetch := { valid := true, inst := first },
    decode := { valid := false, inst := inst0 },
    exec := { valid := false, inst := inst0, rs_val := 0, rt_val := 0, rd_val := 0 },
    mem := { valid := false, inst := inst0, alu_result := 0, mem_addr := 0, store_data := 0,
             is_load := false, is_store := false, miss := false, waiting := false,
             request_queued := false, load_value := 0 },
    wb := { valid := false, inst := inst0, value := 0 },
    cache := { data := fun _ => 0, tag := fun _ => 0, state := fun _ => MESI_I },
    stats := ⟨0, 0, 0, 0, 0, 0, 0, 0⟩ }

/-- The zero-initialized bus (sim.c line 555). -/
def bus_init : BusState :=
  { phase := 0, cmd := 0, origin := 0, addr := 0, shared := 0, provider := 0,
    block := fun _ => 0, delay := 0, index := 0, bus_cmd_out := 0, bus_origid_out := 0,
    bus_addr_out := 0, bus_data_out := 0, bus_shared_out := 0 }

/-- Whole-system reset state, parameterized by the four instruction memories
and the initial main-memory image (sim.c lines 552-587). -/
def init_state (imems : Fin 4 → Nat → Nat) (mem0 : Nat → Nat) : SimState :=
  { cores := fun i => init_core (i : Nat) (imems i),
    requests := fun _ => { active := false, cmd := 0, addr := 0, origin := 0 },
    bus := bus_init, mem := mem0, rr_next := 0 }

/-- States reachable at cycle boundaries of the simulation loop. -/
inductive Reach (imems : Fin 4 → Nat → Nat) (mem0 : Nat → Nat) : SimState → Prop
  | init : Reach imems mem0 (init_state imems mem0)
  | step {s : SimState} : Reach imems mem0 s → Reach imems mem0 (sim_step s)

-- ---------- Line-holding predicates used by the coherence claims ----------

/-- Cache c holds a line with tag t at index k in a non-Invalid state. -/
abbrev lineNonI (c : Cache) (t k : Nat) : Prop := c.tag k = t ∧ c.state k ≠ MESI_I

/-- Cache c holds (t, k) in state M or E. -/
abbrev lineME (c : Cache) (t k : Nat) : Prop :=
  c.tag k = t ∧ (c.state k = MESI_M ∨ c.state k = MESI_E)

/-- Cache c holds (t, k) in state E. -/
abbrev lineE (c : Cache) (t k : Nat) : Prop := c.tag k = t ∧ c.state k = MESI_E

/-- Cache c holds (t, k) in state M. -/
abbrev lineM (c : Cache) (t k : Nat) : Prop := c.tag k = t ∧ c.state k = MESI_M

-- ===================== Claim C9: address decomposition =====================

/-- C9: for every word address a < 2^20 presented to a cache operation, the
offset is bits 2:0, the index bits 8:3 and the tag bits 20:9 of a (for a 20-bit
word address this 12-bit view agrees with the 11 tag bits the code keeps); the
decomposition reconstructs a; read/write/fill address DSRAM as index*8+offset
and the tag store at the index; and lookup hits iff the resident state is not I
and the stored tag equals a's tag field. -/
theorem c9_address_decomposition (a : Nat) (ha : a < 2 ^ 20) (c : Cache) :
    cache_index a = a / 2 ^ 3 % 2 ^ 6 ∧
    cache_tag a = a / 2 ^ 9 % 2 ^ 12 ∧
    cache_tag a < 2 ^ 12 ∧
    a = cache_tag a * 2 ^ 9 + cache_index a * 2 ^ 3 + a % 2 ^ 3 ∧
    cache_read c a = c.data (cache_index a * 8 + a % 2 ^ 3) ∧
    (∀ v, (cache_write c a v).data =
      Function.update c.data (cache_index a * 8 + a % 2 ^ 3) v) ∧
    ((cache_lookup c a).1 = true ↔
      (c.state (cache_index a) ≠ MESI_I ∧ c.tag (cache_index a) = cache_tag a)) ∧
    (∀ blk ns mem,
      (fill_cache_line c (cache_index a) (cache_tag a) blk ns mem).1.tag (cache_index a) =
        cache_tag a) := by
  refine ⟨rfl, ?_, ?_, ?_, rfl, fun v => rfl, ?_, ?_⟩
  · unfold cache_tag; omega
  · unfold cache_tag; omega
  · unfold cache_tag cache_index; omega
  · unfold cache_lookup
    split
    · next h => simpa using h
    · next h => simpa using h
  · intro blk ns mem
    have htag : cache_tag a % 2 ^ 11 = cache_tag a := by unfold cache_tag; omega
    simp only [fill_cache_line, Function.update_same]
    exact htag

/-- Witness for C9 at the concrete address 0x4B1F7. -/
theorem c9_address_decomposition_witness :
    (0x4B1F7 : Nat) < 2 ^ 20 ∧
    (cache_index 0x4B1F7 = 0x4B1F7 / 2 ^ 3 % 2 ^ 6 ∧
     cache_tag 0x4B1F7 = 0x4B1F7 / 2 ^ 9 % 2 ^ 12 ∧
     cache_tag 0x4B1F7 < 2 ^ 12 ∧
     0x4B1F7 = cache_tag 0x4B1F7 * 2 ^ 9 + cache_index 0x4B1F7 * 2 ^ 3 + 0x4B1F7 % 2 ^ 3 ∧
     cache_read ⟨fun _ => 0, fun _ => 0, fun _ => 0⟩ 0x4B1F7 =
       (fun _ => (0 : Nat)) (cache_index 0x4B1F7 * 8 + 0x4B1F7 % 2 ^ 3) ∧
     (∀ v, (cache_write ⟨fun _ => 0, fun _ => 0, fun _ => 0⟩ 0x4B1F7 v).data =
       Function.update (fun _ => (0 : Nat)) (cache_index 0x4B1F7 * 8 + 0x4B1F7 % 2 ^ 3) v) ∧
     ((cache_lookup ⟨fun _ => 0, fun _ => 0, fun _ => 0⟩ 0x4B1F7).1 = true ↔
       ((fun _ => (0 : Nat)) (cache_index 0x4B1F7) ≠ MESI_I ∧
        (fun _ => (0 : Nat)) (cache_index 0x4B1F7) = cache_tag 0x4B1F7)) ∧
     (∀ blk ns mem,
       (fill_cache_line ⟨fun _ => 0, fun _ => 0, fun _ => 0⟩ (cache_index 0x4B1F7)
          (cache_tag 0x4B1F7) blk ns mem).1.tag (cache_index 0x4B1F7) = cache_tag 0x4B1F7)) :=
  ⟨by norm_num, c9_address_decomposition 0x4B1F7 (by norm_num) ⟨fun _ => 0, fun _ => 0, fun _ => 0⟩⟩

-- ===================== Claim C10: undefined opcodes =====================

/-- C10: an instruction whose opcode is none of the 19 defined ones (0..17 and
20) has an empty hazard source set (so it can never trigger a data-hazard
stall), an ALU result of 0, a Memory stage that just forwards the ALU result
with no cache access, retires through Writeback incrementing `instructions`,
and commits 0 to rd when rd ≥ 2 and nothing when rd ≤ 1. -/
theorem c10_undefined_opcode (inst : Instruction) (h1 : 18 ≤ inst.op) (h2 : inst.op ≠ 20) :
    source_regs inst = [] ∧
    (∀ c : Core, hazard_on c inst = false) ∧
    (∀ rs rt, perform_alu inst rs rt = 0) ∧
    dest_reg inst = (if 2 ≤ inst.rd then some inst.rd else none) ∧
    (∀ (c : Core) (st : Stats) (sl : BusRequest), c.mem.valid = true → c.mem.waiting = false →
      c.mem.inst = inst →
      (mem_stage c st sl).next_wb = { valid := true, inst := inst, value := c.mem.alu_result } ∧
      (mem_stage c st sl).cache = c.cache ∧ (mem_stage c st sl).slot = sl ∧
      (mem_stage c st sl).stats = st ∧ (mem_stage c st sl).mem_advances = true) ∧
    (∀ c : Core, c.wb.valid = true → c.wb.inst = inst → c.wb.value = 0 →
      (wb_commit c).stats.instructions = c.stats.instructions + 1 ∧
      (wb_commit c).regs = (if 2 ≤ inst.rd then Function.update c.regs inst.rd 0 else c.regs)) := by
  have hsrc : source_regs inst = [] := by
    unfold source_regs
    simp only [OP_SRL, OP_LW, OP_SW, OP_BEQ, OP_BGE, OP_JAL]
    split_ifs <;> first | rfl | (exfalso; omega)
  have hnotmem : ¬(inst.op = OP_LW ∨ inst.op = OP_SW) := by
    simp only [OP_LW, OP_SW]; omega
  have hdest : dest_reg inst = (if 2 ≤ inst.rd then some inst.rd else none) := by
    unfold dest_reg
    simp only [OP_HALT, OP_SW, OP_BEQ, OP_BGE, OP_JAL]
    split_ifs <;> first | rfl | (exfalso; omega)
  refine ⟨hsrc, ?_, ?_, hdest, ?_, ?_⟩
  · intro c; simp [hazard_on, hsrc]
  · intro rs rt
    unfold perform_alu
    simp only [OP_ADD, OP_SUB, OP_AND, OP_OR, OP_XOR, OP_MUL, OP_SLL, OP_SRA, OP_SRL, OP_JAL]
    split_ifs <;> first | rfl | (exfalso; omega)
  · intro c st sl hv hw hi
    unfold mem_stage
    rw [if_pos (by simp [hv]), if_neg (by simp [hw]), hi, if_neg hnotmem]
    exact ⟨rfl, rfl, rfl, rfl, rfl⟩
  · intro c hv hi hz
    unfold wb_commit
    rw [if_pos (by simp [hv]), hi, hdest]
    constructor
    · rfl
    · split_ifs <;> simp [hz]

def c10_inst : Instruction := decode_inst 0x12500000 3

/-- Witness for C10: opcode 0x12 = 18 is undefined; destination register 5. -/
theorem c10_undefined_opcode_witness :
    (18 ≤ c10_inst.op ∧ c10_inst.op ≠ 20) ∧
    (source_regs c10_inst = [] ∧
     (∀ c : Core, hazard_on c c10_inst = false) ∧
     (∀ rs rt, perform_alu c10_inst rs rt = 0) ∧
     dest_reg c10_inst = (if 2 ≤ c10_inst.rd then some c10_inst.rd else none) ∧
     (∀ (c : Core) (st : Stats) (sl : BusRequest), c.mem.valid = true → c.mem.waiting = false →
       c.mem.inst = c10_inst →
       (mem_stage c st sl).next_wb =
         { valid := true, inst := c10_inst, value := c.mem.alu_result } ∧
       (mem_stage c st sl).cache = c.cache ∧ (mem_stage c st sl).slot = sl ∧
       (mem_stage c st sl).stats = st ∧ (mem_stage c st sl).mem_advances = true) ∧
     (∀ c : Core, c.wb.valid = true → c.wb.inst = c10_inst → c.wb.value = 0 →
       (wb_commit c).stats.instructions = c.stats.instructions + 1 ∧
       (wb_commit c).regs =
         (if 2 ≤ c10_inst.rd then Function.update c.regs c10_inst.rd 0 else c.regs))) :=
  ⟨by constructor <;> decide,
   c10_undefined_opcode c10_inst (by decide) (by decide)⟩

-- ===================== Claim C5: SW upgrade from state S =====================

/-- SW instruction 0x11000000 (op 0x11 = 17 = SW, rd = rs = rt = 0, imm = 0). -/
def c5_inst : Instruction := decode_inst 0x11000000 0

/-- A core whose Memory stage holds an SW to address 0 while the cache holds
that block in state S (an upgrade situation), with zeroed statistics. -/
def c5_core : Core :=
  { init_core 0 (fun _ => 0) with
      mem := { valid := true, inst := c5_inst, alu_result := 0, mem_addr := 0, store_data := 7,
               is_load := false, is_store := true, miss := false, waiting := false,
               request_queued := false, load_value := 0 },
      cache := { data := fun _ => 0, tag := fun _ => 0,
                 state := fun k => if k = 0 then MESI_S else MESI_I } }

def c5_slot : BusRequest := { active := false, cmd := 0, addr := 0, origin := 0 }

/-- C5 counterexample: for an SW whose lookup finds the block in state S, the
Memory stage does NOT increment write_miss (it increments write_hit), contrary
to the claim. -/
theorem c5_counterexample :
    c5_core.mem.valid = true ∧ c5_core.mem.waiting = false ∧
    c5_core.mem.inst.op = OP_SW ∧ c5_core.mem.miss = false ∧
    cache_lookup c5_core.cache c5_core.mem.mem_addr = (true, MESI_S) ∧
    c5_core.stats.write_miss = 0 ∧ c5_core.stats.write_hit = 0 ∧
    (mem_stage c5_core c5_core.stats c5_slot).next_mem.miss = true ∧
    (mem_stage c5_core c5_core.stats c5_slot).next_mem.waiting = true ∧
    (mem_stage c5_core c5_core.stats c5_slot).slot.cmd = BUS_RDX ∧
    (mem_stage c5_core c5_core.stats c5_slot).stats.write_miss = 0 ∧
    (mem_stage c5_core c5_core.stats c5_slot).stats.write_hit = 1 := by
  decide

/-- C5 (amended): for every SW in the Memory stage whose lookup finds the
block in state S (upgrade needed), the stage sets miss and waiting, posts a
BusRdX request with addr = effective address mod 2^20 exactly once, and
increments write_hit (not write_miss) exactly once for that instruction: the
posting cannot repeat because the stage stays `waiting`, and the hit counter
cannot recount because the sticky `miss` flag suppresses all further counting
for that instruction. -/
theorem c5_sw_upgrade_behaviour (c : Core) (st : Stats) (slot : BusRequest)
    (hv : c.mem.valid = true) (hw : c.mem.waiting = false) (hop : c.mem.inst.op = OP_SW)
    (hs : c.cache.state (cache_index c.mem.mem_addr) = MESI_S)
    (ht : c.cache.tag (cache_index c.mem.mem_addr) = cache_tag c.mem.mem_addr)
    (hm : c.mem.miss = false) (hq : c.mem.request_queued = false) :
    ((mem_stage c st slot).next_mem.miss = true ∧
     (mem_stage c st slot).next_mem.waiting = true ∧
     (mem_stage c st slot).slot =
       { active := true, cmd := BUS_RDX, addr := c.mem.mem_addr % 2 ^ 20, origin := c.id } ∧
     (mem_stage c st slot).stats.write_hit = st.write_hit + 1 ∧
     (mem_stage c st slot).stats.write_miss = st.write_miss ∧
     (mem_stage c st slot).mem_advances = false) ∧
    (∀ (c₂ : Core) (st₂ : Stats) (sl₂ : BusRequest),
      c₂.mem.valid = true → c₂.mem.waiting = true →
      (mem_stage c₂ st₂ sl₂).slot = sl₂ ∧
      (mem_stage c₂ st₂ sl₂).next_mem = c₂.mem ∧
      (mem_stage c₂ st₂ sl₂).stats.write_hit = st₂.write_hit ∧
      (mem_stage c₂ st₂ sl₂).stats.write_miss = st₂.write_miss) ∧
    (∀ (c₃ : Core) (st₃ : Stats) (sl₃ : BusRequest),
      c₃.mem.miss = true →
      (mem_stage c₃ st₃ sl₃).stats.write_hit = st₃.write_hit ∧
      (mem_stage c₃ st₃ sl₃).stats.write_miss = st₃.write_miss ∧
      (mem_stage c₃ st₃ sl₃).stats.read_hit = st₃.read_hit ∧
      (mem_stage c₃ st₃ sl₃).stats.read_miss = st₃.read_miss) := by
  have hlk : cache_lookup c.cache c.mem.mem_addr = (true, MESI_S) := by
    unfold cache_lookup
    rw [if_pos ⟨by rw [hs]; decide, ht⟩, hs]
  refine ⟨?_, ?_, ?_⟩
  · unfold mem_stage
    simp [hv, hw, hop, hlk, hm, hq, MESI_S, MESI_I, MESI_E, OP_SW, OP_LW, BUS_RD, BUS_RDX]
  · intro c₂ st₂ sl₂ hv₂ hw₂
    unfold mem_stage
    rw [if_pos (by simp [hv₂]), if_pos (by simp [hw₂])]
    exact ⟨rfl, rfl, rfl, rfl⟩
  · intro c₃ st₃ sl₃ hm₃
    simp only [mem_stage, hm₃]
    split_ifs <;> simp_all

/-- Witness for the amended C5 at the concrete upgrade state c5_core. -/
theorem c5_sw_upgrade_behaviour_witness :
    (c5_core.mem.valid = true ∧ c5_core.mem.waiting = false ∧
     c5_core.mem.inst.op = OP_SW ∧
     c5_core.cache.state (cache_index c5_core.mem.mem_addr) = MESI_S ∧
     c5_core.cache.tag (cache_index c5_core.mem.mem_addr) = cache_tag c5_core.mem.mem_addr ∧
     c5_core.mem.miss = false ∧ c5_core.mem.request_queued = false) ∧
    ((mem_stage c5_core c5_core.stats c5_slot).next_mem.miss = true ∧
     (mem_stage c5_core c5_core.stats c5_slot).next_mem.waiting = true ∧
     (mem_stage c5_core c5_core.stats c5_slot).slot =
       { active := true, cmd := BUS_RDX, addr := c5_core.mem.mem_addr % 2 ^ 20,
         origin := c5_core.id } ∧
     (mem_stage c5_core c5_core.stats c5_slot).stats.write_hit = c5_core.stats.write_hit + 1 ∧
     (mem_stage c5_core c5_core.stats c5_slot).stats.write_miss = c5_core.stats.write_miss ∧
     (mem_stage c5_core c5_core.stats c5_slot).mem_advances = false) :=
  ⟨by refine ⟨rfl, rfl, by decide, by decide, by decide, rfl, rfl⟩,
   (c5_sw_upgrade_behaviour c5_core c5_core.stats c5_slot rfl rfl (by decide) (by decide)
      (by decide) rfl rfl).1⟩

-- ===================== Claim C6: round-robin arbitration =====================

/-- The round-robin scan picks the first active slot at offsets 0..3 from
rr_next. -/
theorem arb_choose_at (requests : Fin 4 → BusRequest) (rr k₀ : Nat) (hk : k₀ < 4)
    (hw : (requests ⟨(rr + k₀) % 4, by omega⟩).active = true)
    (hmin : ∀ k, k < k₀ → (requests ⟨(rr + k) % 4, by omega⟩).active = false) :
    arb_choose requests rr = some ⟨(rr + k₀) % 4, by omega⟩ := by
  have hr : List.range 4 = [0, 1, 2, 3] := rfl
  unfold arb_choose
  rw [hr]
  interval_cases k₀ <;> simp only [Nat.add_zero] at hw hmin ⊢
  · simp [List.findSome?, hw]
  · have h0 := hmin 0 (by omega)
    simp only [Nat.add_zero] at h0
    simp [List.findSome?, h0, hw]
  · have h0 := hmin 0 (by omega)
    have h1 := hmin 1 (by omega)
    simp only [Nat.add_zero] at h0 h1
    simp [List.findSome?, h0, h1, hw]
  · have h0 := hmin 0 (by omega)
    have h1 := hmin 1 (by omega)
    have h2 := hmin 2 (by omega)
    simp only [Nat.add_zero] at h0 h1 h2
    simp [List.findSome?, h0, h1, h2, hw]

/-- C6: whenever the bus is Idle and a request slot is active, the winner is
the first active slot scanning rr_next, rr_next+1, ... mod 4; the winner's slot
is deactivated while every losing slot is untouched; rr_next advances to one
past the winner; and the transaction starts in that same cycle (phase becomes
1 and the winner's command/address are captured and driven). -/
theorem c6_round_robin_arbitration (s : SimState) (k₀ : Nat) (w : Fin 4) (hk : k₀ < 4)
    (h0 : s.bus.phase = 0)
    (hwv : (w : Nat) = (s.rr_next + k₀) % 4)
    (hact : (s.requests w).active = true)
    (hmin : ∀ k, k < k₀ → (s.requests ⟨(s.rr_next + k) % 4, by omega⟩).active = false) :
    ((phase_arb s).requests w).active = false ∧
    (∀ j : Fin 4, j ≠ w → (phase_arb s).requests j = s.requests j) ∧
    (phase_arb s).rr_next = ((w : Nat) + 1) % 4 ∧
    (phase_arb s).bus.phase = 1 ∧
    (phase_arb s).bus.cmd = (s.requests w).cmd ∧
    (phase_arb s).bus.addr = (s.requests w).addr ∧
    (phase_arb s).bus.origin = (s.requests w).origin ∧
    (phase_arb s).bus.bus_cmd_out = (s.requests w).cmd ∧
    (phase_arb s).bus.bus_addr_out = (s.requests w).addr % 2 ^ 20 := by
  have hw' : w = ⟨(s.rr_next + k₀) % 4, by omega⟩ := Fin.eq_of_val_eq hwv
  have hc : arb_choose s.requests s.rr_next = some w := by
    rw [hw']
    exact arb_choose_at s.requests s.rr_next k₀ hk (by rw [← hw']; exact hact) hmin
  unfold phase_arb
  rw [if_pos h0, hc]
  refine ⟨by simp, fun j hj => by simp [Function.update_noteq hj], by simp, rfl, rfl, rfl,
         rfl, rfl, rfl⟩

/-- A system state with only slot 2 active and the rotating pointer at 1. -/
def c6_state : SimState :=
  { init_state (fun _ _ => 0) (fun _ => 0) with
      rr_next := 1,
      requests := fun i =>
        if i = 2 then { active := true, cmd := BUS_RD, addr := 5, origin := 2 }
        else { active := false, cmd := 0, addr := 0, origin := 0 } }

/-- Witness for C6: with rr_next = 1 and only slot 2 active, slot 2 wins at
scan offset 1 and the pointer advances to 3. -/
theorem c6_round_robin_arbitration_witness :
    ((1 : Nat) < 4 ∧ c6_state.bus.phase = 0 ∧
     ((2 : Fin 4) : Nat) = (c6_state.rr_next + 1) % 4 ∧
     (c6_state.requests 2).active = true) ∧
    (((phase_arb c6_state).requests 2).active = false ∧
     (∀ j : Fin 4, j ≠ 2 → (phase_arb c6_state).requests j = c6_state.requests j) ∧
     (phase_arb c6_state).rr_next = (((2 : Fin 4) : Nat) + 1) % 4 ∧
     (phase_arb c6_state).bus.phase = 1 ∧
     (phase_arb c6_state).bus.cmd = (c6_state.requests 2).cmd ∧
     (phase_arb c6_state).bus.addr = (c6_state.requests 2).addr ∧
     (phase_arb c6_state).bus.origin = (c6_state.requests 2).origin ∧
     (phase_arb c6_state).bus.bus_cmd_out = (c6_state.requests 2).cmd ∧
     (phase_arb c6_state).bus.bus_addr_out = (c6_state.requests 2).addr % 2 ^ 20) :=
  ⟨⟨by norm_num, rfl, by decide, by decide⟩,
   c6_round_robin_arbitration c6_state 1 2 (by norm_num) rfl (by decide) (by decide)
     (fun k hk => by interval_cases k; decide)⟩

-- ===================== Helper lemmas on block writes =====================

theorem cache_index_lt (a : Nat) : cache_index a < 64 := by
  unfold cache_index; omega

theorem cache_tag_lt (a : Nat) : cache_tag a < 2 ^ 11 := by
  unfold cache_tag; omega

theorem cache_index_block_base (a : Nat) : cache_index (block_base a) = cache_index a := by
  unfold cache_index block_base; omega

theorem cache_tag_block_base (a : Nat) : cache_tag (block_base a) = cache_tag a := by
  unfold cache_tag block_base; omega

theorem block_base_decomp (a : Nat) (ha : a < 2 ^ 20) :
    block_base a = cache_tag a * 512 + cache_index a * 8 := by
  unfold block_base cache_tag cache_index; omega

theorem line_base_addr_lt (t idx : Nat) (h : idx < 64) : line_base_addr t idx + 8 ≤ 2 ^ 20 := by
  unfold line_base_addr; omega

theorem write_block_get (mem : Nat → Nat) (base : Nat) (blk : Nat → Nat)
    (h20 : base + 8 ≤ 2 ^ 20) (j : Nat) (hj : j < 8) :
    write_block mem base blk (base + j) = blk j := by
  have m0 : (base + 0) % 2 ^ 20 = base + 0 := Nat.mod_eq_of_lt (by omega)
  have m1 : (base + 1) % 2 ^ 20 = base + 1 := Nat.mod_eq_of_lt (by omega)
  have m2 : (base + 2) % 2 ^ 20 = base + 2 := Nat.mod_eq_of_lt (by omega)
  have m3 : (base + 3) % 2 ^ 20 = base + 3 := Nat.mod_eq_of_lt (by omega)
  have m4 : (base + 4) % 2 ^ 20 = base + 4 := Nat.mod_eq_of_lt (by omega)
  have m5 : (base + 5) % 2 ^ 20 = base + 5 := Nat.mod_eq_of_lt (by omega)
  have m6 : (base + 6) % 2 ^ 20 = base + 6 := Nat.mod_eq_of_lt (by omega)
  have m7 : (base + 7) % 2 ^ 20 = base + 7 := Nat.mod_eq_of_lt (by omega)
  unfold write_block
  rw [show List.range 8 = [0, 1, 2, 3, 4, 5, 6, 7] from rfl]
  simp only [List.foldl_cons, List.foldl_nil, Function.update_apply, m0, m1, m2, m3, m4, m5,
    m6, m7]
  split_ifs <;> first | (congr 1; omega) | (exfalso; omega)

theorem write_block_other (mem : Nat → Nat) (base : Nat) (blk : Nat → Nat) (a : Nat)
    (h : ∀ k, k < 8 → a ≠ (base + k) % 2 ^ 20) :
    write_block mem base blk a = mem a := by
  have h0 := h 0 (by omega)
  have h1 := h 1 (by omega)
  have h2 := h 2 (by omega)
  have h3 := h 3 (by omega)
  have h4 := h 4 (by omega)
  have h5 := h 5 (by omega)
  have h6 := h 6 (by omega)
  have h7 := h 7 (by omega)
  unfold write_block
  rw [show List.range 8 = [0, 1, 2, 3, 4, 5, 6, 7] from rfl]
  simp only [List.foldl_cons, List.foldl_nil, Function.update_apply]
  split_ifs <;> simp_all

theorem fill_cache_line_data_get (c : Cache) (idx t : Nat) (blk : Nat → Nat) (ns : Nat)
    (mem : Nat → Nat) (j : Nat) (hj : j < 8) :
    (fill_cache_line c idx t blk ns mem).1.data (idx * 8 + j) = blk j := by
  unfold fill_cache_line
  dsimp only
  rw [show List.range 8 = [0, 1, 2, 3, 4, 5, 6, 7] from rfl]
  simp only [List.foldl_cons, List.foldl_nil, Function.update_apply]
  split_ifs <;> first | (congr 1; omega) | (exfalso; omega)

theorem fill_cache_line_tag (c : Cache) (idx t : Nat) (blk : Nat → Nat) (ns : Nat)
    (mem : Nat → Nat) :
    (fill_cache_line c idx t blk ns mem).1.tag = Function.update c.tag idx (t % 2 ^ 11) := rfl

theorem fill_cache_line_state (c : Cache) (idx t : Nat) (blk : Nat → Nat) (ns : Nat)
    (mem : Nat → Nat) :
    (fill_cache_line c idx t blk ns mem).1.state = Function.update c.state idx ns := rfl

theorem fill_cache_line_mem (c : Cache) (idx t : Nat) (blk : Nat → Nat) (ns : Nat)
    (mem : Nat → Nat) :
    (fill_cache_line c idx t blk ns mem).2 = writeback_line c idx mem := rfl

-- ===================== Claim C1: bus transaction completion =====================

/-- C1: when the Flush phase completes after the 8th word, all 8 staged words
land in main memory at the block base (mod 2^20), the requester's line at the
block's index is filled with the staged block (with a prior writeback to memory
of the previously resident line if it was in M), the new state is S/E/M
according to BusRd+shared / BusRd+clean / BusRdX, and the requester's
Memory-stage waiting flag is cleared.  The hypotheses record facts that hold
for every real transaction: a requester < 4, a 20-bit address, a valid Memory
stage, and a resident dirty victim necessarily being a different block. -/
theorem c1_complete_transaction (bus : BusState) (cores : Fin 4 → Core) (mem : Nat → Nat)
    (h4 : bus.origin < 4) (ha : bus.addr < 2 ^ 20)
    (hv : (cores ⟨bus.origin, h4⟩).mem.valid = true)
    (hsafe : (cores ⟨bus.origin, h4⟩).cache.state (cache_index bus.addr) = MESI_M →
      (cores ⟨bus.origin, h4⟩).cache.tag (cache_index bus.addr) % 2 ^ 11 ≠ cache_tag bus.addr) :
    (∀ j, j < 8 →
      (complete_transaction bus cores mem).2 (block_base bus.addr + j) = bus.block j) ∧
    (∀ j, j < 8 →
      ((complete_transaction bus cores mem).1 ⟨bus.origin, h4⟩).cache.data
        (cache_index bus.addr * 8 + j) = bus.block j) ∧
    ((complete_transaction bus cores mem).1 ⟨bus.origin, h4⟩).cache.tag (cache_index bus.addr) =
      cache_tag bus.addr ∧
    ((complete_transaction bus cores mem).1 ⟨bus.origin, h4⟩).cache.state (cache_index bus.addr) =
      (if bus.cmd = BUS_RD then (if bus.shared ≠ 0 then MESI_S else MESI_E) else MESI_M) ∧
    ((cores ⟨bus.origin, h4⟩).cache.state (cache_index bus.addr) = MESI_M →
      ∀ j, j < 8 →
        (complete_transaction bus cores mem).2
          (line_base_addr ((cores ⟨bus.origin, h4⟩).cache.tag (cache_index bus.addr))
            (cache_index bus.addr) + j) =
          (cores ⟨bus.origin, h4⟩).cache.data (cache_index bus.addr * 8 + j)) ∧
    ((complete_transaction bus cores mem).1 ⟨bus.origin, h4⟩).mem.waiting = false ∧
    (∀ i : Fin 4, (i : Nat) ≠ bus.origin → (complete_transaction bus cores mem).1 i = cores i) := by
  have hkey : complete_transaction bus cores mem =
      (Function.update cores ⟨bus.origin, h4⟩
         { cores ⟨bus.origin, h4⟩ with
             cache := (fill_cache_line (cores ⟨bus.origin, h4⟩).cache
                        (cache_index (block_base bus.addr)) (cache_tag (block_base bus.addr))
                        bus.block
                        (if bus.cmd = BUS_RD then (if bus.shared ≠ 0 then MESI_S else MESI_E)
                         else MESI_M)
                        (write_block mem (block_base bus.addr) bus.block)).1,
             mem := if (cores ⟨bus.origin, h4⟩).mem.valid && (cores ⟨bus.origin, h4⟩).mem.waiting
                    then { (cores ⟨bus.origin, h4⟩).mem with waiting := false }
                    else (cores ⟨bus.origin, h4⟩).mem },
       (fill_cache_line (cores ⟨bus.origin, h4⟩).cache
          (cache_index (block_base bus.addr)) (cache_tag (block_base bus.addr)) bus.block
          (if bus.cmd = BUS_RD then (if bus.shared ≠ 0 then MESI_S else MESI_E) else MESI_M)
          (write_block mem (block_base bus.addr) bus.block)).2) := by
    unfold complete_transaction
    rw [dif_pos h4]
  have hself := Function.update_same (β := fun _ : Fin 4 => Core) ⟨bus.origin, h4⟩
  have hidx := cache_index_block_base bus.addr
  have htg := cache_tag_block_base bus.addr
  have hidxlt := cache_index_lt bus.addr
  have htglt := cache_tag_lt bus.addr
  have hbd := block_base_decomp bus.addr ha
  have hb20 : block_base bus.addr + 8 ≤ 2 ^ 20 := by unfold block_base; omega
  -- the final memory is the staged block overlaid with (at most) a victim
  -- writeback to a disjoint range
  have hmem : (complete_transaction bus cores mem).2 =
      writeback_line (cores ⟨bus.origin, h4⟩).cache (cache_index bus.addr)
        (write_block mem (block_base bus.addr) bus.block) := by
    rw [hkey, fill_cache_line_mem, hidx]
  have hcache : ((complete_transaction bus cores mem).1 ⟨bus.origin, h4⟩).cache =
      (fill_cache_line (cores ⟨bus.origin, h4⟩).cache (cache_index bus.addr)
        (cache_tag bus.addr) bus.block
        (if bus.cmd = BUS_RD then (if bus.shared ≠ 0 then MESI_S else MESI_E) else MESI_M)
        (write_block mem (block_base bus.addr) bus.block)).1 := by
    rw [hkey, hidx, htg]
    dsimp only
    rw [hself]
  have hmemlatch : ((complete_transaction bus cores mem).1 ⟨bus.origin, h4⟩).mem =
      (if (cores ⟨bus.origin, h4⟩).mem.valid && (cores ⟨bus.origin, h4⟩).mem.waiting
       then { (cores ⟨bus.origin, h4⟩).mem with waiting := false }
       else (cores ⟨bus.origin, h4⟩).mem) := by
    rw [hkey]
    dsimp only
    rw [hself]
  refine ⟨?_, ?_, ?_, ?_, ?_, ?_, ?_⟩
  · -- staged block lands at the block base
    intro j hj
    rw [hmem]
    unfold writeback_line
    split
    · next hM =>
      have hne := hsafe hM
      rw [write_block_other]
      · exact write_block_get mem (block_base bus.addr) bus.block hb20 j hj
      · intro k hk
        have hmod : (line_base_addr ((cores ⟨bus.origin, h4⟩).cache.tag (cache_index bus.addr))
            (cache_index bus.addr) + k) % 2 ^ 20 =
            line_base_addr ((cores ⟨bus.origin, h4⟩).cache.tag (cache_index bus.addr))
              (cache_index bus.addr) + k := by
          have := line_base_addr_lt ((cores ⟨bus.origin, h4⟩).cache.tag (cache_index bus.addr))
            (cache_index bus.addr) hidxlt
          exact Nat.mod_eq_of_lt (by omega)
        rw [hmod]
        unfold line_base_addr at *
        omega
    · exact write_block_get mem (block_base bus.addr) bus.block hb20 j hj
  · -- the requester's line data is the staged block
    intro j hj
    rw [hcache]
    exact fill_cache_line_data_get _ _ _ _ _ _ j hj
  · -- the requester's line tag
    rw [hcache, fill_cache_line_tag, Function.update_same]
    omega
  · -- the requester's line state
    rw [hcache, fill_cache_line_state, Function.update_same]
  · -- prior writeback of a dirty victim is visible in the final memory
    intro hM j hj
    rw [hmem]
    unfold writeback_line
    rw [if_pos hM]
    exact write_block_get _ _ _
      (line_base_addr_lt ((cores ⟨bus.origin, h4⟩).cache.tag (cache_index bus.addr))
        (cache_index bus.addr) hidxlt) j hj
  · -- the waiting flag is cleared
    rw [hmemlatch]
    rcases hcw : (cores ⟨bus.origin, h4⟩).mem.waiting with _ | _
    · rw [if_neg (by simp [hcw])]; exact hcw
    · rw [if_pos (by simp [hv, hcw])]
  · -- other cores untouched
    intro i hi
    rw [hkey]
    exact Function.update_noteq (Fin.ne_of_val_ne hi) _ cores

/-- A concrete completing BusRd transaction from core 1 for block 0x208. -/
def c1_bus : BusState :=
  { bus_init with phase := 2, cmd := BUS_RD, origin := 1, addr := 0x208,
                  shared := 0, provider := 4, block := fun j => j + 10, index := 8 }

def c1_cores : Fin 4 → Core := fun i =>
  if i = 1 then
    { init_core 1 (fun _ => 0) with
        mem := { valid := true, inst := inst0, alu_result := 0, mem_addr := 0x208,
                 store_data := 0, is_load := true, is_store := false, miss := true,
                 waiting := true, request_queued := false, load_value := 0 } }
  else init_core (i : Nat) (fun _ => 0)

/-- Witness for C1 at a concrete memory-sourced BusRd completion. -/
theorem c1_complete_transaction_witness :
    (c1_bus.origin < 4 ∧ c1_bus.addr < 2 ^ 20 ∧
     (c1_cores ⟨c1_bus.origin, by decide⟩).mem.valid = true ∧
     ((c1_cores ⟨c1_bus.origin, by decide⟩).cache.state (cache_index c1_bus.addr) = MESI_M →
       (c1_cores ⟨c1_bus.origin, by decide⟩).cache.tag (cache_index c1_bus.addr) % 2 ^ 11 ≠
         cache_tag c1_bus.addr)) ∧
    ((∀ j, j < 8 →
      (complete_transaction c1_bus c1_cores (fun _ => 0)).2 (block_base c1_bus.addr + j) =
        c1_bus.block j) ∧
    (∀ j, j < 8 →
      ((complete_transaction c1_bus c1_cores (fun _ => 0)).1 ⟨c1_bus.origin, by decide⟩).cache.data
        (cache_index c1_bus.addr * 8 + j) = c1_bus.block j) ∧
    ((complete_transaction c1_bus c1_cores (fun _ => 0)).1
        ⟨c1_bus.origin, by decide⟩).cache.tag (cache_index c1_bus.addr) = cache_tag c1_bus.addr ∧
    ((complete_transaction c1_bus c1_cores (fun _ => 0)).1
        ⟨c1_bus.origin, by decide⟩).cache.state (cache_index c1_bus.addr) =
      (if c1_bus.cmd = BUS_RD then (if c1_bus.shared ≠ 0 then MESI_S else MESI_E) else MESI_M) ∧
    ((c1_cores ⟨c1_bus.origin, by decide⟩).cache.state (cache_index c1_bus.addr) = MESI_M →
      ∀ j, j < 8 →
        (complete_transaction c1_bus c1_cores (fun _ => 0)).2
          (line_base_addr ((c1_cores ⟨c1_bus.origin, by decide⟩).cache.tag
              (cache_index c1_bus.addr)) (cache_index c1_bus.addr) + j) =
          (c1_cores ⟨c1_bus.origin, by decide⟩).cache.data (cache_index c1_bus.addr * 8 + j)) ∧
    ((complete_transaction c1_bus c1_cores (fun _ => 0)).1
        ⟨c1_bus.origin, by decide⟩).mem.waiting = false ∧
    (∀ i : Fin 4, (i : Nat) ≠ c1_bus.origin →
      (complete_transaction c1_bus c1_cores (fun _ => 0)).1 i = c1_cores i)) :=
  ⟨⟨by decide, by decide, by decide, by decide⟩,
   c1_complete_transaction c1_bus c1_cores (fun _ => 0) (by decide) (by decide) (by decide)
     (by decide)⟩

-- ===================== apply_snoop characterization =====================

theorem apply_snoop_skip (c : Cache) (id origin cmd addr : Nat) (acc : SnoopAcc)
    (h : id = origin) : apply_snoop c id origin cmd addr acc = (c, acc) := by
  unfold apply_snoop; rw [if_pos h]

theorem apply_snoop_nomatch (c : Cache) (id origin cmd addr : Nat) (acc : SnoopAcc)
    (h : id ≠ origin) (hnm : ¬ lineNonI c (cache_tag addr) (cache_index addr)) :
    apply_snoop c id origin cmd addr acc = (c, acc) := by
  unfold apply_snoop
  rw [if_neg h, if_pos]
  unfold lineNonI at hnm
  tauto

theorem apply_snoop_M (c : Cache) (id origin cmd addr : Nat) (acc : SnoopAcc)
    (h : id ≠ origin) (htag : c.tag (cache_index addr) = cache_tag addr)
    (hst : c.state (cache_index addr) = MESI_M) :
    apply_snoop c id origin cmd addr acc =
      ({ c with state := Function.update c.state (cache_index addr) (if cmd = BUS_RD then MESI_S else MESI_I) },
       { shared := 1, provider := (id : Int),
         block := fun j => c.data (cache_index addr * 8 + j) }) := by
  unfold apply_snoop
  dsimp only
  rw [if_neg h, if_neg (by rw [hst, htag]; unfold MESI_M MESI_I; omega), if_pos hst]

theorem apply_snoop_E (c : Cache) (id origin cmd addr : Nat) (acc : SnoopAcc)
    (h : id ≠ origin) (htag : c.tag (cache_index addr) = cache_tag addr)
    (hst : c.state (cache_index addr) = MESI_E) :
    apply_snoop c id origin cmd addr acc =
      ({ c with state := Function.update c.state (cache_index addr) (if cmd = BUS_RD then MESI_S else MESI_I) },
       { acc with shared := 1 }) := by
  unfold apply_snoop
  dsimp only
  rw [if_neg h, if_neg (by rw [hst, htag]; unfold MESI_E MESI_I; omega),
    if_neg (by rw [hst]; unfold MESI_E MESI_M; omega), if_pos hst]

theorem apply_snoop_S_rdx (c : Cache) (id origin cmd addr : Nat) (acc : SnoopAcc)
    (h : id ≠ origin) (htag : c.tag (cache_index addr) = cache_tag addr)
    (hst : c.state (cache_index addr) = MESI_S) (hcmd : cmd = BUS_RDX) :
    apply_snoop c id origin cmd addr acc =
      ({ c with state := Function.update c.state (cache_index addr) MESI_I },
       { acc with shared := 1 }) := by
  unfold apply_snoop
  dsimp only
  rw [if_neg h, if_neg (by rw [hst, htag]; unfold MESI_S MESI_I; omega),
    if_neg (by rw [hst]; unfold MESI_S MESI_M; omega),
    if_neg (by rw [hst]; unfold MESI_S MESI_E; omega), if_pos ⟨hst, hcmd⟩]

theorem apply_snoop_S_rd (c : Cache) (id origin cmd addr : Nat) (acc : SnoopAcc)
    (h : id ≠ origin) (htag : c.tag (cache_index addr) = cache_tag addr)
    (hst : c.state (cache_index addr) = MESI_S) (hcmd : cmd ≠ BUS_RDX) :
    apply_snoop c id origin cmd addr acc = (c, { acc with shared := 1 }) := by
  unfold apply_snoop
  dsimp only
  rw [if_neg h, if_neg (by rw [hst, htag]; unfold MESI_S MESI_I; omega),
    if_neg (by rw [hst]; unfold MESI_S MESI_M; omega),
    if_neg (by rw [hst]; unfold MESI_S MESI_E; omega), if_neg (by tauto)]

/-- The snooped cache does not depend on the threaded accumulator. -/
theorem apply_snoop_cache_acc_irrel (c : Cache) (id origin cmd addr : Nat)
    (acc acc' : SnoopAcc) :
    (apply_snoop c id origin cmd addr acc).1 = (apply_snoop c id origin cmd addr acc').1 := by
  unfold apply_snoop
  dsimp only
  split_ifs <;> rfl

theorem apply_snoop_shared (c : Cache) (id origin cmd addr : Nat) (acc : SnoopAcc) :
    (apply_snoop c id origin cmd addr acc).2.shared =
      if id ≠ origin ∧ lineNonI c (cache_tag addr) (cache_index addr) then 1
      else acc.shared := by
  unfold apply_snoop lineNonI
  dsimp only
  split_ifs <;>
    first | rfl | tauto | (exfalso; simp only [MESI_I, MESI_S, MESI_E, MESI_M] at *; omega)

theorem apply_snoop_provider (c : Cache) (id origin cmd addr : Nat) (acc : SnoopAcc) :
    (apply_snoop c id origin cmd addr acc).2.provider =
      if id ≠ origin ∧ lineM c (cache_tag addr) (cache_index addr) then (id : Int)
      else acc.provider := by
  unfold apply_snoop lineM
  dsimp only
  split_ifs <;>
    first | rfl | tauto | (exfalso; simp only [MESI_I, MESI_S, MESI_E, MESI_M] at *; omega)

theorem apply_snoop_block (c : Cache) (id origin cmd addr : Nat) (acc : SnoopAcc) :
    (apply_snoop c id origin cmd addr acc).2.block =
      if id ≠ origin ∧ lineM c (cache_tag addr) (cache_index addr) then
        (fun j => c.data (cache_index addr * 8 + j))
      else acc.block := by
  unfold apply_snoop lineM
  dsimp only
  split_ifs <;>
    first | rfl | tauto | (exfalso; simp only [MESI_I, MESI_S, MESI_E, MESI_M] at *; omega)

/-- Each snooped cache in start_bus_transaction is its own apply_snoop result. -/
theorem start_bus_cache (bus : BusState) (req : BusRequest) (cores : Fin 4 → Core)
    (mem : Nat → Nat) (i : Fin 4) :
    ((start_bus_transaction bus req cores mem).2 i).cache =
      (apply_snoop (cores i).cache (i : Nat) req.origin req.cmd req.addr
        { shared := 0, provider := -1, block := fun _ => 0 }).1 := by
  fin_cases i <;> exact apply_snoop_cache_acc_irrel _ _ _ _ _ _ _

/-- Non-cache fields of the cores are untouched by the snoop. -/
theorem start_bus_core_fields (bus : BusState) (req : BusRequest) (cores : Fin 4 → Core)
    (mem : Nat → Nat) (i : Fin 4) :
    ((start_bus_transaction bus req cores mem).2 i) =
      { cores i with cache := ((start_bus_transaction bus req cores mem).2 i).cache } := rfl

theorem apply_snoop_frame (c : Cache) (id origin cmd addr : Nat) (acc : SnoopAcc) :
    (apply_snoop c id origin cmd addr acc).1.tag = c.tag ∧
    (apply_snoop c id origin cmd addr acc).1.data = c.data ∧
    (∀ k', k' ≠ cache_index addr →
      (apply_snoop c id origin cmd addr acc).1.state k' = c.state k') := by
  unfold apply_snoop
  dsimp only
  split_ifs <;> refine ⟨rfl, rfl, fun k' hk' => ?_⟩ <;>
    first | rfl | (exact Function.update_noteq hk' _ _)

/-- The shared accumulator of the four-cache snoop chain in
start_bus_transaction, fully rewritten. -/
theorem start_bus_shared_iff (bus : BusState) (req : BusRequest) (cores : Fin 4 → Core)
    (mem : Nat → Nat) :
    ((start_bus_transaction bus req cores mem).1.shared ≠ 0 ↔
      ∃ i : Fin 4, (i : Nat) ≠ req.origin ∧
        lineNonI (cores i).cache (cache_tag req.addr) (cache_index req.addr)) ∧
    ((start_bus_transaction bus req cores mem).1.shared = 0 ∨
     (start_bus_transaction bus req cores mem).1.shared = 1) := by
  have hfin : (start_bus_transaction bus req cores mem).1.shared =
      (apply_snoop (cores 3).cache 3 req.origin req.cmd req.addr
        (apply_snoop (cores 2).cache 2 req.origin req.cmd req.addr
          (apply_snoop (cores 1).cache 1 req.origin req.cmd req.addr
            (apply_snoop (cores 0).cache 0 req.origin req.cmd req.addr
              { shared := 0, provider := -1, block := fun _ => 0 }).2).2).2).2.shared := rfl
  rw [hfin, apply_snoop_shared, apply_snoop_shared, apply_snoop_shared, apply_snoop_shared]
  constructor
  · split_ifs with p3 p2 p1 p0
    · exact iff_of_true (by omega) ⟨3, p3⟩
    · exact iff_of_true (by omega) ⟨2, p2⟩
    · exact iff_of_true (by omega) ⟨1, p1⟩
    · exact iff_of_true (by omega) ⟨0, p0⟩
    · refine iff_of_false (by simp) ?_
      rintro ⟨i, hi⟩
      fin_cases i
      exacts [p0 hi, p1 hi, p2 hi, p3 hi]
  · split_ifs <;> simp

/-- The source selection of start_bus_transaction, as a function of the snoop
accumulator chain. -/
theorem start_bus_src (bus : BusState) (req : BusRequest) (cores : Fin 4 → Core)
    (mem : Nat → Nat) :
    (start_bus_transaction bus req cores mem).1.provider =
      (if (apply_snoop (cores 3).cache 3 req.origin req.cmd req.addr
            (apply_snoop (cores 2).cache 2 req.origin req.cmd req.addr
              (apply_snoop (cores 1).cache 1 req.origin req.cmd req.addr
                (apply_snoop (cores 0).cache 0 req.origin req.cmd req.addr
                  { shared := 0, provider := -1, block := fun _ => 0 }).2).2).2).2.provider = -1
       then (4 : Int)
       else (apply_snoop (cores 3).cache 3 req.origin req.cmd req.addr
            (apply_snoop (cores 2).cache 2 req.origin req.cmd req.addr
              (apply_snoop (cores 1).cache 1 req.origin req.cmd req.addr
                (apply_snoop (cores 0).cache 0 req.origin req.cmd req.addr
                  { shared := 0, provider := -1, block := fun _ => 0 }).2).2).2).2.provider) ∧
    (start_bus_transaction bus req cores mem).1.block =
      (if (apply_snoop (cores 3).cache 3 req.origin req.cmd req.addr
            (apply_snoop (cores 2).cache 2 req.origin req.cmd req.addr
              (apply_snoop (cores 1).cache 1 req.origin req.cmd req.addr
                (apply_snoop (cores 0).cache 0 req.origin req.cmd req.addr
                  { shared := 0, provider := -1, block := fun _ => 0 }).2).2).2).2.provider = -1
       then (fun j => mem ((block_base req.addr + j) % 2 ^ 20))
       else (apply_snoop (cores 3).cache 3 req.origin req.cmd req.addr
            (apply_snoop (cores 2).cache 2 req.origin req.cmd req.addr
              (apply_snoop (cores 1).cache 1 req.origin req.cmd req.addr
                (apply_snoop (cores 0).cache 0 req.origin req.cmd req.addr
                  { shared := 0, provider := -1, block := fun _ => 0 }).2).2).2).2.block) ∧
    (start_bus_transaction bus req cores mem).1.delay =
      (if (apply_snoop (cores 3).cache 3 req.origin req.cmd req.addr
            (apply_snoop (cores 2).cache 2 req.origin req.cmd req.addr
              (apply_snoop (cores 1).cache 1 req.origin req.cmd req.addr
                (apply_snoop (cores 0).cache 0 req.origin req.cmd req.addr
                  { shared := 0, provider := -1, block := fun _ => 0 }).2).2).2).2.provider = -1
       then 16 else 0) := by
  unfold start_bus_transaction
  dsimp only
  split_ifs <;> exact ⟨rfl, rfl, rfl⟩

/-- The provider chosen by start_bus_transaction is memory (4) or a non-origin
cache that held the block in state M. -/
theorem start_bus_provider_cases (bus : BusState) (req : BusRequest) (cores : Fin 4 → Core)
    (mem : Nat → Nat) :
    (start_bus_transaction bus req cores mem).1.provider = 4 ∨
    (∃ i : Fin 4, (start_bus_transaction bus req cores mem).1.provider = ((i : Nat) : Int) ∧
      (i : Nat) ≠ req.origin ∧
      lineM (cores i).cache (cache_tag req.addr) (cache_index req.addr)) := by
  have hsp := (start_bus_src bus req cores mem).1
  rw [apply_snoop_provider, apply_snoop_provider, apply_snoop_provider, apply_snoop_provider]
    at hsp
  by_cases p3 : (3 : Nat) ≠ req.origin ∧
      lineM (cores 3).cache (cache_tag req.addr) (cache_index req.addr)
  · right
    refine ⟨3, ?_, p3⟩
    rw [hsp, if_pos p3, if_neg (by omega)]
    exact rfl
  by_cases p2 : (2 : Nat) ≠ req.origin ∧
      lineM (cores 2).cache (cache_tag req.addr) (cache_index req.addr)
  · right
    refine ⟨2, ?_, p2⟩
    rw [hsp, if_neg p3, if_pos p2, if_neg (by omega)]
    exact rfl
  by_cases p1 : (1 : Nat) ≠ req.origin ∧
      lineM (cores 1).cache (cache_tag req.addr) (cache_index req.addr)
  · right
    refine ⟨1, ?_, p1⟩
    rw [hsp, if_neg p3, if_neg p2, if_pos p1, if_neg (by omega)]
    exact rfl
  by_cases p0 : (0 : Nat) ≠ req.origin ∧
      lineM (cores 0).cache (cache_tag req.addr) (cache_index req.addr)
  · right
    refine ⟨0, ?_, p0⟩
    rw [hsp, if_neg p3, if_neg p2, if_neg p1, if_pos p0, if_neg (by omega)]
    exact rfl
  · left
    rw [hsp, if_neg p3, if_neg p2, if_neg p1, if_neg p0, if_pos rfl]

/-- When exactly one non-origin cache holds the block in M, it is the provider
and its line is the staged block; the transaction has zero latency. -/
theorem start_bus_provider_M (bus : BusState) (req : BusRequest) (cores : Fin 4 → Core)
    (mem : Nat → Nat) (i0 : Fin 4) (hne : (i0 : Nat) ≠ req.origin)
    (hM : lineM (cores i0).cache (cache_tag req.addr) (cache_index req.addr))
    (huniq : ∀ j : Fin 4, (j : Nat) ≠ req.origin →
      lineM (cores j).cache (cache_tag req.addr) (cache_index req.addr) → j = i0) :
    (start_bus_transaction bus req cores mem).1.provider = ((i0 : Nat) : Int) ∧
    (start_bus_transaction bus req cores mem).1.block =
      (fun j => (cores i0).cache.data (cache_index req.addr * 8 + j)) ∧
    (start_bus_transaction bus req cores mem).1.delay = 0 := by
  obtain ⟨hsp, hsb, hsd⟩ := start_bus_src bus req cores mem
  rw [apply_snoop_provider, apply_snoop_provider, apply_snoop_provider, apply_snoop_provider]
    at hsp hsb hsd
  rw [apply_snoop_block, apply_snoop_block, apply_snoop_block, apply_snoop_block] at hsb
  fin_cases i0
  · have hP : (0 : Nat) ≠ req.origin ∧
        lineM (cores 0).cache (cache_tag req.addr) (cache_index req.addr) := ⟨hne, hM⟩
    have n3 : ¬((3 : Nat) ≠ req.origin ∧
        lineM (cores 3).cache (cache_tag req.addr) (cache_index req.addr)) := by
      rintro ⟨a, b⟩; exact absurd (huniq 3 a b) (by decide)
    have n2 : ¬((2 : Nat) ≠ req.origin ∧
        lineM (cores 2).cache (cache_tag req.addr) (cache_index req.addr)) := by
      rintro ⟨a, b⟩; exact absurd (huniq 2 a b) (by decide)
    have n1 : ¬((1 : Nat) ≠ req.origin ∧
        lineM (cores 1).cache (cache_tag req.addr) (cache_index req.addr)) := by
      rintro ⟨a, b⟩; exact absurd (huniq 1 a b) (by decide)
    simp only [if_neg n3, if_neg n2, if_neg n1, if_pos hP] at hsp hsb hsd
    rw [if_neg (by omega : ¬(((0 : Nat) : Int) = -1))] at hsp hsb hsd
    exact ⟨hsp, hsb, hsd⟩
  · have hP : (1 : Nat) ≠ req.origin ∧
        lineM (cores 1).cache (cache_tag req.addr) (cache_index req.addr) := ⟨hne, hM⟩
    have n3 : ¬((3 : Nat) ≠ req.origin ∧
        lineM (cores 3).cache (cache_tag req.addr) (cache_index req.addr)) := by
      rintro ⟨a, b⟩; exact absurd (huniq 3 a b) (by decide)
    have n2 : ¬((2 : Nat) ≠ req.origin ∧
        lineM (cores 2).cache (cache_tag req.addr) (cache_index req.addr)) := by
      rintro ⟨a, b⟩; exact absurd (huniq 2 a b) (by decide)
    simp only [if_neg n3, if_neg n2, if_pos hP] at hsp hsb hsd
    rw [if_neg (by omega : ¬(((1 : Nat) : Int) = -1))] at hsp hsb hsd
    exact ⟨hsp, hsb, hsd⟩
  · have hP : (2 : Nat) ≠ req.origin ∧
        lineM (cores 2).cache (cache_tag req.addr) (cache_index req.addr) := ⟨hne, hM⟩
    have n3 : ¬((3 : Nat) ≠ req.origin ∧
        lineM (cores 3).cache (cache_tag req.addr) (cache_index req.addr)) := by
      rintro ⟨a, b⟩; exact absurd (huniq 3 a b) (by decide)
    simp only [if_neg n3, if_pos hP] at hsp hsb hsd
    rw [if_neg (by omega : ¬(((2 : Nat) : Int) = -1))] at hsp hsb hsd
    exact ⟨hsp, hsb, hsd⟩
  · have hP : (3 : Nat) ≠ req.origin ∧
        lineM (cores 3).cache (cache_tag req.addr) (cache_index req.addr) := ⟨hne, hM⟩
    simp only [if_pos hP] at hsp hsb hsd
    rw [if_neg (by omega : ¬(((3 : Nat) : Int) = -1))] at hsp hsb hsd
    exact ⟨hsp, hsb, hsd⟩

-- ===================== Claim C2: snoop transitions =====================

/-- C2: at transaction start, every non-origin cache with a matching non-I
line reacts exactly as MESI prescribes: M goes to S on BusRd and I on BusRdX
(becoming the provider with its block staged, when it is the unique M holder);
E goes to S/I without providing; S goes to I on BusRdX and stays S on BusRd;
non-matching caches and the origin cache are untouched (and only the matched
index's state ever changes); and the shared flag is set iff at least one
non-origin cache held the block in a non-I state at snoop time. -/
theorem c2_snoop_transitions (bus : BusState) (req : BusRequest) (cores : Fin 4 → Core)
    (mem : Nat → Nat) (hcmd : req.cmd = BUS_RD ∨ req.cmd = BUS_RDX) :
    (∀ i : Fin 4, (i : Nat) ≠ req.origin →
      (lineM (cores i).cache (cache_tag req.addr) (cache_index req.addr) →
        ((start_bus_transaction bus req cores mem).2 i).cache.state (cache_index req.addr) =
          (if req.cmd = BUS_RD then MESI_S else MESI_I)) ∧
      (lineE (cores i).cache (cache_tag req.addr) (cache_index req.addr) →
        ((start_bus_transaction bus req cores mem).2 i).cache.state (cache_index req.addr) =
          (if req.cmd = BUS_RD then MESI_S else MESI_I) ∧
        (start_bus_transaction bus req cores mem).1.provider ≠ ((i : Nat) : Int)) ∧
      ((cores i).cache.tag (cache_index req.addr) = cache_tag req.addr ∧
        (cores i).cache.state (cache_index req.addr) = MESI_S →
        ((start_bus_transaction bus req cores mem).2 i).cache.state (cache_index req.addr) =
          (if req.cmd = BUS_RDX then MESI_I else MESI_S)) ∧
      (¬ lineNonI (cores i).cache (cache_tag req.addr) (cache_index req.addr) →
        ((start_bus_transaction bus req cores mem).2 i).cache = (cores i).cache) ∧
      (((start_bus_transaction bus req cores mem).2 i).cache.tag = (cores i).cache.tag ∧
       ((start_bus_transaction bus req cores mem).2 i).cache.data = (cores i).cache.data ∧
       ∀ k', k' ≠ cache_index req.addr →
         ((start_bus_transaction bus req cores mem).2 i).cache.state k' =
           (cores i).cache.state k')) ∧
    (∀ i : Fin 4, (i : Nat) = req.origin →
      ((start_bus_transaction bus req cores mem).2 i).cache = (cores i).cache) ∧
    ((start_bus_transaction bus req cores mem).1.shared ≠ 0 ↔
      ∃ i : Fin 4, (i : Nat) ≠ req.origin ∧
        lineNonI (cores i).cache (cache_tag req.addr) (cache_index req.addr)) ∧
    ((start_bus_transaction bus req cores mem).1.shared = 0 ∨
     (start_bus_transaction bus req cores mem).1.shared = 1) ∧
    (∀ i0 : Fin 4, (i0 : Nat) ≠ req.origin →
      lineM (cores i0).cache (cache_tag req.addr) (cache_index req.addr) →
      (∀ j : Fin 4, (j : Nat) ≠ req.origin →
        lineM (cores j).cache (cache_tag req.addr) (cache_index req.addr) → j = i0) →
      (start_bus_transaction bus req cores mem).1.provider = ((i0 : Nat) : Int) ∧
      (∀ j, j < 8 → (start_bus_transaction bus req cores mem).1.block j =
        (cores i0).cache.data (cache_index req.addr * 8 + j)) ∧
      (start_bus_transaction bus req cores mem).1.delay = 0) := by
  refine ⟨?_, ?_, (start_bus_shared_iff bus req cores mem).1,
    (start_bus_shared_iff bus req cores mem).2, ?_⟩
  · intro i hi
    have hc := start_bus_cache bus req cores mem i
    refine ⟨?_, ?_, ?_, ?_, ?_⟩
    · rintro ⟨htag, hst⟩
      rw [hc, apply_snoop_M _ _ _ _ _ _ hi htag hst]
      exact Function.update_same _ _ _
    · rintro ⟨htag, hst⟩
      constructor
      · rw [hc, apply_snoop_E _ _ _ _ _ _ hi htag hst]
        exact Function.update_same _ _ _
      · rcases start_bus_provider_cases bus req cores mem with h4 | ⟨j, hj, hjo, hjM⟩
        · rw [h4]
          have := i.isLt
          omega
        · rw [hj]
          intro hji
          have hval : (j : Nat) = (i : Nat) := by exact_mod_cast hji
          have hfin : j = i := Fin.eq_of_val_eq hval
          subst hfin
          rcases hjM with ⟨_, hMst⟩
          rw [hst] at hMst
          simp [MESI_E, MESI_M] at hMst
    · rintro ⟨htag, hst⟩
      rcases hcmd with h | h
      · rw [hc, apply_snoop_S_rd _ _ _ _ _ _ hi htag hst
          (by rw [h]; unfold BUS_RD BUS_RDX; omega)]
        rw [if_neg (by rw [h]; unfold BUS_RD BUS_RDX; omega)]
        exact hst
      · rw [hc, apply_snoop_S_rdx _ _ _ _ _ _ hi htag hst h, if_pos h]
        exact Function.update_same _ _ _
    · intro hnm
      rw [hc, apply_snoop_nomatch _ _ _ _ _ _ hi hnm]
    · have hf := apply_snoop_frame (cores i).cache (i : Nat) req.origin req.cmd req.addr
        { shared := 0, provider := -1, block := fun _ => 0 }
      exact ⟨by rw [hc]; exact hf.1, by rw [hc]; exact hf.2.1,
        fun k' hk' => by rw [hc]; exact hf.2.2 k' hk'⟩
  · intro i hi
    rw [start_bus_cache bus req cores mem i, apply_snoop_skip _ _ _ _ _ _ hi]
  · intro i0 h1 h2 h3
    have hp := start_bus_provider_M bus req cores mem i0 h1 h2 h3
    exact ⟨hp.1, fun j hj => by rw [hp.2.1], hp.2.2⟩

/-- A concrete snoop situation: core 0 requests BusRd for word 0x40 while
core 1 holds that block (index 8, tag 0) in state M. -/
def c2_req : BusRequest := { active := true, cmd := BUS_RD, addr := 0x40, origin := 0 }

def c2_cores : Fin 4 → Core := fun i =>
  if i = 1 then
    { init_core 1 (fun _ => 0) with
        cache := { data := fun n => n, tag := fun _ => 0,
                   state := fun k => if k = 8 then MESI_M else MESI_I } }
  else init_core (i : Nat) (fun _ => 0)

/-- Witness for C2 at the concrete snoop situation. -/
theorem c2_snoop_transitions_witness :
    (c2_req.cmd = BUS_RD ∨ c2_req.cmd = BUS_RDX) ∧
    ((∀ i : Fin 4, (i : Nat) ≠ c2_req.origin →
      (lineM (c2_cores i).cache (cache_tag c2_req.addr) (cache_index c2_req.addr) →
        ((start_bus_transaction bus_init c2_req c2_cores (fun _ => 0)).2 i).cache.state
            (cache_index c2_req.addr) =
          (if c2_req.cmd = BUS_RD then MESI_S else MESI_I)) ∧
      (lineE (c2_cores i).cache (cache_tag c2_req.addr) (cache_index c2_req.addr) →
        ((start_bus_transaction bus_init c2_req c2_cores (fun _ => 0)).2 i).cache.state
            (cache_index c2_req.addr) =
          (if c2_req.cmd = BUS_RD then MESI_S else MESI_I) ∧
        (start_bus_transaction bus_init c2_req c2_cores (fun _ => 0)).1.provider ≠
          ((i : Nat) : Int)) ∧
      ((c2_cores i).cache.tag (cache_index c2_req.addr) = cache_tag c2_req.addr ∧
        (c2_cores i).cache.state (cache_index c2_req.addr) = MESI_S →
        ((start_bus_transaction bus_init c2_req c2_cores (fun _ => 0)).2 i).cache.state
            (cache_index c2_req.addr) =
          (if c2_req.cmd = BUS_RDX then MESI_I else MESI_S)) ∧
      (¬ lineNonI (c2_cores i).cache (cache_tag c2_req.addr) (cache_index c2_req.addr) →
        ((start_bus_transaction bus_init c2_req c2_cores (fun _ => 0)).2 i).cache =
          (c2_cores i).cache) ∧
      (((start_bus_transaction bus_init c2_req c2_cores (fun _ => 0)).2 i).cache.tag =
          (c2_cores i).cache.tag ∧
       ((start_bus_transaction bus_init c2_req c2_cores (fun _ => 0)).2 i).cache.data =
          (c2_cores i).cache.data ∧
       ∀ k', k' ≠ cache_index c2_req.addr →
         ((start_bus_transaction bus_init c2_req c2_cores (fun _ => 0)).2 i).cache.state k' =
           (c2_cores i).cache.state k')) ∧
    (∀ i : Fin 4, (i : Nat) = c2_req.origin →
      ((start_bus_transaction bus_init c2_req c2_cores (fun _ => 0)).2 i).cache =
        (c2_cores i).cache) ∧
    ((start_bus_transaction bus_init c2_req c2_cores (fun _ => 0)).1.shared ≠ 0 ↔
      ∃ i : Fin 4, (i : Nat) ≠ c2_req.origin ∧
        lineNonI (c2_cores i).cache (cache_tag c2_req.addr) (cache_index c2_req.addr)) ∧
    ((start_bus_transaction bus_init c2_req c2_cores (fun _ => 0)).1.shared = 0 ∨
     (start_bus_transaction bus_init c2_req c2_cores (fun _ => 0)).1.shared = 1) ∧
    (∀ i0 : Fin 4, (i0 : Nat) ≠ c2_req.origin →
      lineM (c2_cores i0).cache (cache_tag c2_req.addr) (cache_index c2_req.addr) →
      (∀ j : Fin 4, (j : Nat) ≠ c2_req.origin →
        lineM (c2_cores j).cache (cache_tag c2_req.addr) (cache_index c2_req.addr) → j = i0) →
      (start_bus_transaction bus_init c2_req c2_cores (fun _ => 0)).1.provider =
        ((i0 : Nat) : Int) ∧
      (∀ j, j < 8 → (start_bus_transaction bus_init c2_req c2_cores (fun _ => 0)).1.block j =
        (c2_cores i0).cache.data (cache_index c2_req.addr * 8 + j)) ∧
      (start_bus_transaction bus_init c2_req c2_cores (fun _ => 0)).1.delay = 0)) :=
  ⟨Or.inl rfl, c2_snoop_transitions bus_init c2_req c2_cores (fun _ => 0) (Or.inl rfl)⟩

-- ============ Frame lemmas for the per-cycle phases (shared by C3/C4/C7/C8) ============

theorem wb_commit_frame (c : Core) :
    (wb_commit c).cache = c.cache ∧ (wb_commit c).mem = c.mem ∧
    (wb_commit c).decode = c.decode ∧ (wb_commit c).fetch = c.fetch ∧
    (wb_commit c).exec = c.exec ∧ (wb_commit c).id = c.id ∧
    (wb_commit c).imem = c.imem ∧ (wb_commit c).pc = c.pc ∧
    (wb_commit c).redirect_pending = c.redirect_pending ∧
    (wb_commit c).stop_fetch = c.stop_fetch ∧ (wb_commit c).done = c.done := by
  unfold wb_commit
  split_ifs <;> exact ⟨rfl, rfl, rfl, rfl, rfl, rfl, rfl, rfl, rfl, rfl, rfl⟩

/-- WB commit only touches registers named by dest_reg (which is ≥ 2). -/
theorem wb_commit_regs (c : Core) (r : Nat) (hr : r ≤ 1) :
    (wb_commit c).regs r = c.regs r := by
  unfold wb_commit
  split_ifs
  · cases hd : dest_reg c.wb.inst with
    | none => simp [hd]
    | some d =>
        have h2 : 2 ≤ d := by
          unfold dest_reg at hd
          split_ifs at hd <;> simp_all <;> omega
        simp only [hd]
        exact Function.update_noteq (by omega) _ _
  · rfl

theorem cache_lookup_state (c : Cache) (addr : Nat)
    (h : (cache_lookup c addr).1 = true) :
    (cache_lookup c addr).2 = c.state (cache_index addr) := by
  unfold cache_lookup at h ⊢
  split_ifs at h ⊢ <;> simp_all

/-- The cache produced by the Memory stage: unchanged, or a data write, or a
data write plus the E→M upgrade of the accessed line. -/
theorem mem_stage_cache_val (c : Core) (st : Stats) (sl : BusRequest) :
    (mem_stage c st sl).cache = c.cache ∨
    (mem_stage c st sl).cache = cache_write c.cache c.mem.mem_addr c.mem.store_data ∨
    ((mem_stage c st sl).cache =
        { cache_write c.cache c.mem.mem_addr c.mem.store_data with
            state := Function.update
              (cache_write c.cache c.mem.mem_addr c.mem.store_data).state
              (cache_index c.mem.mem_addr) MESI_M } ∧
      (cache_lookup c.cache c.mem.mem_addr).1 = true ∧
      (cache_lookup c.cache c.mem.mem_addr).2 = MESI_E) := by
  by_cases hv : c.mem.valid = true
  · by_cases hw : c.mem.waiting = true
    · left; simp [mem_stage, hv, hw]
    · by_cases hmem : c.mem.inst.op = OP_LW ∨ c.mem.inst.op = OP_SW
      · by_cases hreq : (cache_lookup c.cache c.mem.mem_addr).1 = false ∨
            (cache_lookup c.cache c.mem.mem_addr).2 = MESI_I ∨
            (c.mem.inst.op = OP_SW ∧ (cache_lookup c.cache c.mem.mem_addr).2 = MESI_S)
        · left; simp [mem_stage, hv, hw, hmem, hreq]
        · push_neg at hreq
          obtain ⟨hb, hI, hS⟩ := hreq
          have h1 : (cache_lookup c.cache c.mem.mem_addr).1 = true := by
            simpa using hb
          have hops : OP_LW ≠ OP_SW := by decide
          have hops2 : OP_SW ≠ OP_LW := by decide
          have hEI : MESI_E ≠ MESI_I := by decide
          have hES : MESI_E ≠ MESI_S := by decide
          by_cases hlw : c.mem.inst.op = OP_LW
          · left
            simp [mem_stage, hv, hw, hmem, h1, hI, hlw, hops, hops2, hEI, hES]
          · have hsw : c.mem.inst.op = OP_SW := hmem.resolve_left hlw
            have hMS : ¬(cache_lookup c.cache c.mem.mem_addr).2 = MESI_S := hS hsw
            by_cases hE : (cache_lookup c.cache c.mem.mem_addr).2 = MESI_E
            · right; right
              refine ⟨?_, h1, hE⟩
              simp [mem_stage, hv, hw, hmem, h1, hI, hsw, hMS, hE, hops, hops2, hEI, hES]
            · right; left
              simp [mem_stage, hv, hw, hmem, h1, hI, hsw, hMS, hE, hops, hops2, hEI, hES]
      · left; simp [mem_stage, hv, hw, hmem]
  · left; simp [mem_stage, hv]

/-- The Memory stage changes the cache only by data writes and an E→M upgrade
of the accessed (tag-matching) line. -/
theorem mem_stage_cache_evol (c : Core) (st : Stats) (sl : BusRequest) :
    (mem_stage c st sl).cache.tag = c.cache.tag ∧
    (∀ k, (mem_stage c st sl).cache.state k = c.cache.state k ∨
      (c.cache.state k = MESI_E ∧ (mem_stage c st sl).cache.state k = MESI_M)) := by
  rcases mem_stage_cache_val c st sl with h | h | ⟨h, h1, hE⟩
  · rw [h]
    exact ⟨rfl, fun k => Or.inl rfl⟩
  · rw [h]
    exact ⟨rfl, fun k => Or.inl rfl⟩
  · rw [h]
    refine ⟨rfl, fun k => ?_⟩
    rcases Decidable.em (k = cache_index c.mem.mem_addr) with hk | hk
    · subst hk
      right
      have hst := cache_lookup_state c.cache c.mem.mem_addr h1
      exact ⟨by rw [← hst]; exact hE, Function.update_same _ _ _⟩
    · left
      exact Function.update_noteq hk _ _

theorem mem_stage_cache_stats_irrel (c : Core) (st st' : Stats) (sl sl' : BusRequest) :
    (mem_stage c st sl).cache = (mem_stage c st' sl').cache := by
  by_cases hv : c.mem.valid = true
  · by_cases hw : c.mem.waiting = true
    · simp [mem_stage, hv, hw]
    · by_cases hmem : c.mem.inst.op = OP_LW ∨ c.mem.inst.op = OP_SW
      · by_cases hreq : (cache_lookup c.cache c.mem.mem_addr).1 = false ∨
            (cache_lookup c.cache c.mem.mem_addr).2 = MESI_I ∨
            (c.mem.inst.op = OP_SW ∧ (cache_lookup c.cache c.mem.mem_addr).2 = MESI_S)
        · simp [mem_stage, hv, hw, hmem, hreq]
        · push_neg at hreq
          obtain ⟨hb, hI, hS⟩ := hreq
          have h1 : (cache_lookup c.cache c.mem.mem_addr).1 = true := by
            simpa using hb
          have hops : OP_LW ≠ OP_SW := by decide
          have hops2 : OP_SW ≠ OP_LW := by decide
          have hEI : MESI_E ≠ MESI_I := by decide
          have hES : MESI_E ≠ MESI_S := by decide
          by_cases hlw : c.mem.inst.op = OP_LW
          · simp [mem_stage, hv, hw, hmem, h1, hI, hlw, hops, hops2, hEI, hES]
          · have hsw : c.mem.inst.op = OP_SW := hmem.resolve_left hlw
            have hMS : ¬(cache_lookup c.cache c.mem.mem_addr).2 = MESI_S := hS hsw
            simp [mem_stage, hv, hw, hmem, h1, hI, hsw, hMS, hops, hops2, hEI, hES]
      · simp [mem_stage, hv, hw, hmem]
  · simp [mem_stage, hv]

theorem mem_stage_advances (c : Core) (st : Stats) (sl : BusRequest) :
    (mem_stage c st sl).mem_advances = mem_advances_flag c := by
  by_cases hv : c.mem.valid = true
  · by_cases hw : c.mem.waiting = true
    · simp [mem_stage, mem_advances_flag, hv, hw]
    · by_cases hmem : c.mem.inst.op = OP_LW ∨ c.mem.inst.op = OP_SW
      · by_cases hreq : (cache_lookup c.cache c.mem.mem_addr).1 = false ∨
            (cache_lookup c.cache c.mem.mem_addr).2 = MESI_I ∨
            (c.mem.inst.op = OP_SW ∧ (cache_lookup c.cache c.mem.mem_addr).2 = MESI_S)
        · simp [mem_stage, mem_advances_flag, hv, hw, hmem, hreq]
        · push_neg at hreq
          obtain ⟨hb, hI, hS⟩ := hreq
          have h1 : (cache_lookup c.cache c.mem.mem_addr).1 = true := by
            simpa using hb
          by_cases hlw : c.mem.inst.op = OP_LW
          · have hops : OP_LW ≠ OP_SW := by decide
            simp [mem_stage, mem_advances_flag, hv, hw, hmem, h1, hI, hlw, hops]
          · have hsw : c.mem.inst.op = OP_SW := hmem.resolve_left hlw
            have hMS := hS hsw
            have hops2 : OP_SW ≠ OP_LW := by decide
            simp [mem_stage, mem_advances_flag, hv, hw, hmem, h1, hI, hsw, hMS, hops2]
      · simp [mem_stage, mem_advances_flag, hv, hw, hmem]
  · simp [mem_stage, mem_advances_flag, hv]

theorem core_cycle_cache (c : Core) (sl : BusRequest) :
    (core_cycle c sl).1.cache = (mem_stage c c.stats sl).cache := by
  unfold core_cycle
  dsimp only
  exact mem_stage_cache_stats_irrel c _ c.stats sl sl

theorem core_cycle_cache_evol (c : Core) (sl : BusRequest) :
    (core_cycle c sl).1.cache.tag = c.cache.tag ∧
    (∀ k, (core_cycle c sl).1.cache.state k = c.cache.state k ∨
      (c.cache.state k = MESI_E ∧ (core_cycle c sl).1.cache.state k = MESI_M)) := by
  rw [core_cycle_cache]
  exact mem_stage_cache_evol c c.stats sl

theorem core_cycle_lineNonI (c : Core) (sl : BusRequest) (t k : Nat) :
    lineNonI (core_cycle c sl).1.cache t k ↔ lineNonI c.cache t k := by
  obtain ⟨htag, hst⟩ := core_cycle_cache_evol c sl
  unfold lineNonI
  rw [htag]
  rcases hst k with h | ⟨hE, hM⟩
  · rw [h]
  · rw [hM, hE]
    unfold MESI_E MESI_M MESI_I
    simp

theorem core_cycle_lineME (c : Core) (sl : BusRequest) (t k : Nat) :
    lineME (core_cycle c sl).1.cache t k ↔ lineME c.cache t k := by
  obtain ⟨htag, hst⟩ := core_cycle_cache_evol c sl
  unfold lineME
  rw [htag]
  rcases hst k with h | ⟨hE, hM⟩
  · rw [h]
  · rw [hM, hE]
    unfold MESI_E MESI_M
    simp

theorem core_cycle_lineE_rev (c : Core) (sl : BusRequest) (t k : Nat) :
    lineE (core_cycle c sl).1.cache t k → lineE c.cache t k := by
  obtain ⟨htag, hst⟩ := core_cycle_cache_evol c sl
  unfold lineE
  rw [htag]
  rcases hst k with h | ⟨hE, hM⟩
  · rw [h]
    exact id
  · rw [hM, hE]
    unfold MESI_E MESI_M
    rintro ⟨h1, h2⟩
    omega

theorem core_cycle_slot_out (c : Core) (sl : BusRequest) :
    (core_cycle c sl).2 =
      (mem_stage c (if c.done then c.stats else { c.stats with cycles := c.stats.cycles + 1 })
        sl).slot := rfl

theorem mem_stage_slot_invalid (c : Core) (st : Stats) (sl : BusRequest)
    (h : c.mem.valid = false) : (mem_stage c st sl).slot = sl := by
  unfold mem_stage
  rw [if_neg (by simp [h])]

theorem mem_stage_slot_waiting (c : Core) (st : Stats) (sl : BusRequest)
    (h : c.mem.waiting = true) : (mem_stage c st sl).slot = sl := by
  unfold mem_stage
  dsimp only
  split_ifs <;> rfl

/-- A core either leaves its request slot alone or posts an active BusRd/BusRdX
request carrying its own id and a 20-bit address. -/
theorem core_cycle_slot (c : Core) (sl : BusRequest) :
    (core_cycle c sl).2 = sl ∨
    ((core_cycle c sl).2.active = true ∧
     ((core_cycle c sl).2.cmd = BUS_RD ∨ (core_cycle c sl).2.cmd = BUS_RDX) ∧
     (core_cycle c sl).2.origin = c.id ∧ (core_cycle c sl).2.addr < 2 ^ 20) := by
  rw [core_cycle_slot_out]
  by_cases hv : c.mem.valid = true
  · by_cases hw : c.mem.waiting = true
    · left; simp [mem_stage, hv, hw]
    · by_cases hmem : c.mem.inst.op = OP_LW ∨ c.mem.inst.op = OP_SW
      · by_cases hreq : (cache_lookup c.cache c.mem.mem_addr).1 = false ∨
            (cache_lookup c.cache c.mem.mem_addr).2 = MESI_I ∨
            (c.mem.inst.op = OP_SW ∧ (cache_lookup c.cache c.mem.mem_addr).2 = MESI_S)
        · by_cases hq : c.mem.request_queued = true
          · left; simp [mem_stage, hv, hw, hmem, hreq, hq]
          · right
            have hslot : (mem_stage c (if c.done then c.stats
                else { c.stats with cycles := c.stats.cycles + 1 }) sl).slot =
                { active := true,
                  cmd := if c.mem.inst.op = OP_LW then BUS_RD else BUS_RDX,
                  addr := c.mem.mem_addr % 2 ^ 20, origin := c.id } := by
              simp [mem_stage, hv, hw, hmem, hreq, hq]
            rw [hslot]
            refine ⟨rfl, ?_, rfl, Nat.mod_lt _ (by norm_num)⟩
            rcases Decidable.em (c.mem.inst.op = OP_LW) with hLW | hLW
            · left
              show (if c.mem.inst.op = OP_LW then BUS_RD else BUS_RDX) = BUS_RD
              rw [if_pos hLW]
            · right
              show (if c.mem.inst.op = OP_LW then BUS_RD else BUS_RDX) = BUS_RDX
              rw [if_neg hLW]
        · push_neg at hreq
          obtain ⟨hb, hI, hS⟩ := hreq
          have h1 : (cache_lookup c.cache c.mem.mem_addr).1 = true := by
            simpa using hb
          have hops : OP_LW ≠ OP_SW := by decide
          have hops2 : OP_SW ≠ OP_LW := by decide
          have hEI : MESI_E ≠ MESI_I := by decide
          have hES : MESI_E ≠ MESI_S := by decide
          by_cases hlw : c.mem.inst.op = OP_LW
          · left; simp [mem_stage, hv, hw, hmem, h1, hI, hlw, hops, hops2, hEI, hES]
          · have hsw : c.mem.inst.op = OP_SW := hmem.resolve_left hlw
            have hMS : ¬(cache_lookup c.cache c.mem.mem_addr).2 = MESI_S := hS hsw
            left
            simp [mem_stage, hv, hw, hmem, h1, hI, hsw, hMS, hops, hops2, hEI, hES]
      · left; simp [mem_stage, hv, hw, hmem]
  · left; simp [mem_stage, hv]

-- ============ Bus timing step lemmas ============

theorem reset_bus_out_fields (b : BusState) :
    (reset_bus_out b).phase = b.phase ∧ (reset_bus_out b).cmd = b.cmd ∧
    (reset_bus_out b).origin = b.origin ∧ (reset_bus_out b).addr = b.addr ∧
    (reset_bus_out b).shared = b.shared ∧ (reset_bus_out b).provider = b.provider ∧
    (reset_bus_out b).block = b.block ∧ (reset_bus_out b).delay = b.delay ∧
    (reset_bus_out b).index = b.index ∧ (reset_bus_out b).bus_cmd_out = BUS_NONE :=
  ⟨rfl, rfl, rfl, rfl, rfl, rfl, rfl, rfl, rfl, rfl⟩

theorem phase_arb_busy (s : SimState) (h : s.bus.phase ≠ 0) : phase_arb s = s := by
  unfold phase_arb
  rw [if_neg h]

theorem bus_drive_wait (b : BusState) (h1 : b.phase = 1) (h2 : b.delay ≠ 0) :
    bus_drive b = b := by
  unfold bus_drive
  rw [if_neg (by rw [h1]; omega), if_neg (by rintro ⟨_, hd, _⟩; exact h2 hd)]

theorem bus_advance_wait (b : BusState) (cs : Fin 4 → Core) (m : Nat → Nat)
    (h1 : b.phase = 1) (h2 : 0 < b.delay) :
    bus_advance b cs m = ({ b with delay := b.delay - 1 }, cs, m) := by
  unfold bus_advance
  rw [if_pos ⟨h1, h2⟩]

theorem bus_drive_fire (b : BusState) (h1 : b.phase = 1) (h2 : b.delay = 0)
    (h3 : b.bus_cmd_out = BUS_NONE) :
    bus_drive b =
      { b with
          phase := 2, index := 0, bus_cmd_out := BUS_FLUSH,
          bus_origid_out := b.provider, bus_addr_out := block_base b.addr,
          bus_data_out := b.block 0, bus_shared_out := b.shared } := by
  unfold bus_drive
  rw [if_neg (by rw [h1]; omega), if_pos ⟨h1, h2, h3⟩]

theorem bus_advance_flush (b : BusState) (cs : Fin 4 → Core) (m : Nat → Nat)
    (h1 : b.phase = 2) (h2 : b.bus_cmd_out = BUS_FLUSH) (h3 : b.index + 1 < 8) :
    bus_advance b cs m = ({ b with index := b.index + 1 }, cs, m) := by
  unfold bus_advance
  dsimp only
  rw [if_neg (by rintro ⟨hp, _⟩; omega), if_pos ⟨h1, h2⟩, if_neg (by omega)]

/-- One full simulated cycle while the bus is counting down memory latency:
only the counter moves, and no bus command is driven. -/
theorem sim_step_wait_bus (s : SimState) (h1 : s.bus.phase = 1) (h2 : 0 < s.bus.delay) :
    (sim_step s).bus = { reset_bus_out s.bus with delay := s.bus.delay - 1 } := by
  have harb : phase_arb (phase_pipe (phase_wb s)) = phase_pipe (phase_wb s) :=
    phase_arb_busy _ (by
      show (reset_bus_out s.bus).phase ≠ 0
      rw [(reset_bus_out_fields s.bus).1, h1]
      omega)
  show (phase_adv (phase_drive (phase_arb (phase_pipe (phase_wb s))))).bus = _
  rw [harb]
  show (bus_advance (bus_drive (reset_bus_out s.bus)) _ _).1 = _
  rw [bus_drive_wait _ (by rw [(reset_bus_out_fields s.bus).1]; exact h1)
    (by rw [(reset_bus_out_fields s.bus).2.2.2.2.2.2.2.1]; omega)]
  rw [bus_advance_wait _ _ _ (by rw [(reset_bus_out_fields s.bus).1]; exact h1)
    (by rw [(reset_bus_out_fields s.bus).2.2.2.2.2.2.2.1]; exact h2)]
  rfl

/-- The cycle in which the counter is observed at 0: the bus transitions to
Flush and drives the first staged word. -/
theorem sim_step_fire_bus (s : SimState) (h1 : s.bus.phase = 1) (h2 : s.bus.delay = 0) :
    (sim_step s).bus =
      { reset_bus_out s.bus with
          phase := 2, index := 1, bus_cmd_out := BUS_FLUSH,
          bus_origid_out := s.bus.provider, bus_addr_out := block_base s.bus.addr,
          bus_data_out := s.bus.block 0, bus_shared_out := s.bus.shared } := by
  have harb : phase_arb (phase_pipe (phase_wb s)) = phase_pipe (phase_wb s) :=
    phase_arb_busy _ (by
      show (reset_bus_out s.bus).phase ≠ 0
      rw [(reset_bus_out_fields s.bus).1, h1]
      omega)
  show (phase_adv (phase_drive (phase_arb (phase_pipe (phase_wb s))))).bus = _
  rw [harb]
  show (bus_advance (bus_drive (reset_bus_out s.bus)) _ _).1 = _
  rw [bus_drive_fire _ (by rw [(reset_bus_out_fields s.bus).1]; exact h1)
    (by rw [(reset_bus_out_fields s.bus).2.2.2.2.2.2.2.1]; exact h2)
    (reset_bus_out_fields s.bus).2.2.2.2.2.2.2.2.2]
  rw [bus_advance_flush _ _ _ rfl rfl (by show (0 : Nat) + 1 < 8; norm_num)]
  rfl

/-- Iterating the wait cycles: for k ≤ delay, after k cycles the counter reads
delay − k, the transaction snapshot is untouched, and (for k ≥ 1) the cycle
drove no bus command. -/
theorem sim_step_wait_iter (s : SimState) (h1 : s.bus.phase = 1) :
    ∀ k, k ≤ s.bus.delay →
      (sim_step^[k] s).bus.phase = 1 ∧
      (sim_step^[k] s).bus.delay = s.bus.delay - k ∧
      (sim_step^[k] s).bus.cmd = s.bus.cmd ∧
      (sim_step^[k] s).bus.addr = s.bus.addr ∧
      (sim_step^[k] s).bus.shared = s.bus.shared ∧
      (sim_step^[k] s).bus.provider = s.bus.provider ∧
      (sim_step^[k] s).bus.block = s.bus.block ∧
      (1 ≤ k → (sim_step^[k] s).bus.bus_cmd_out = BUS_NONE) := by
  intro k
  induction k with
  | zero =>
      intro _
      rw [Function.iterate_zero_apply]
      refine ⟨h1, by omega, rfl, rfl, rfl, rfl, rfl, by omega⟩
  | succ n ih =>
      intro hn
      obtain ⟨ip, idl, ic, ia, ish, ipr, ib, _⟩ := ih (by omega)
      have hd : 0 < (sim_step^[n] s).bus.delay := by omega
      have hw := sim_step_wait_bus (sim_step^[n] s) ip hd
      rw [Function.iterate_succ_apply', hw]
      refine ⟨ip, ?_, ic, ia, ish, ipr, ib, fun _ => rfl⟩
      show (sim_step^[n] s).bus.delay - 1 = s.bus.delay - (n + 1)
      omega


-- ===================== Claim C7: memory latency =====================

/-- When no non-origin cache holds the requested block in M, the transaction
is memory-sourced: provider 4 (memory), latency 16, block staged from main
memory. -/
theorem start_bus_memory (bus : BusState) (req : BusRequest) (cores : Fin 4 → Core)
    (mem : Nat → Nat)
    (hM : ∀ i : Fin 4, (i : Nat) ≠ req.origin →
      ¬ lineM (cores i).cache (cache_tag req.addr) (cache_index req.addr)) :
    (start_bus_transaction bus req cores mem).1.provider = 4 ∧
    (start_bus_transaction bus req cores mem).1.delay = 16 ∧
    (start_bus_transaction bus req cores mem).1.block =
      fun j => mem ((block_base req.addr + j) % 2 ^ 20) := by
  obtain ⟨hsp, hsb, hsd⟩ := start_bus_src bus req cores mem
  rw [apply_snoop_provider, apply_snoop_provider, apply_snoop_provider, apply_snoop_provider]
    at hsp hsb hsd
  have n0 : ¬((0 : Nat) ≠ req.origin ∧
      lineM (cores 0).cache (cache_tag req.addr) (cache_index req.addr)) := by
    rintro ⟨a, b⟩; exact hM 0 a b
  have n1 : ¬((1 : Nat) ≠ req.origin ∧
      lineM (cores 1).cache (cache_tag req.addr) (cache_index req.addr)) := by
    rintro ⟨a, b⟩; exact hM 1 a b
  have n2 : ¬((2 : Nat) ≠ req.origin ∧
      lineM (cores 2).cache (cache_tag req.addr) (cache_index req.addr)) := by
    rintro ⟨a, b⟩; exact hM 2 a b
  have n3 : ¬((3 : Nat) ≠ req.origin ∧
      lineM (cores 3).cache (cache_tag req.addr) (cache_index req.addr)) := by
    rintro ⟨a, b⟩; exact hM 3 a b
  simp only [if_neg n0, if_neg n1, if_neg n2, if_neg n3] at hsp hsb hsd
  simp only [if_true] at hsp hsb hsd
  exact ⟨hsp, hsd, hsb⟩

/-- Fields the transaction start sets directly, independent of the snoop. -/
theorem start_bus_fields (bus : BusState) (req : BusRequest) (cores : Fin 4 → Core)
    (mem : Nat → Nat) :
    (start_bus_transaction bus req cores mem).1.phase = 1 ∧
    (start_bus_transaction bus req cores mem).1.cmd = req.cmd ∧
    (start_bus_transaction bus req cores mem).1.addr = req.addr ∧
    (start_bus_transaction bus req cores mem).1.origin = req.origin ∧
    (start_bus_transaction bus req cores mem).1.bus_cmd_out = req.cmd ∧
    (start_bus_transaction bus req cores mem).1.bus_addr_out = req.addr % 2 ^ 20 ∧
    (start_bus_transaction bus req cores mem).1.index = 0 :=
  ⟨rfl, rfl, rfl, rfl, rfl, rfl, rfl⟩

/-- Arbitration with a known winner, as an equation on the whole state. -/
theorem phase_arb_start (s : SimState) (w : Fin 4) (h0 : s.bus.phase = 0)
    (h : arb_choose s.requests s.rr_next = some w) :
    phase_arb s =
      { s with
          bus := (start_bus_transaction s.bus (s.requests w) s.cores s.mem).1,
          cores := (start_bus_transaction s.bus (s.requests w) s.cores s.mem).2,
          requests := Function.update s.requests w { s.requests w with active := false },
          rr_next := ((w : Nat) + 1) % 4 } := by
  unfold phase_arb
  rw [if_pos h0, h]

/-- C7: for a memory-sourced transaction (no cache holds the requested block
in M or E, so the snoop finds no provider): the latency counter starts at 16
and provider 4 (memory) is recorded; the start cycle drives the request
command and leaves the counter at 15 at the cycle boundary; in each of the 15
following cycles the counter is still positive and no bus command is driven;
and in the 16th cycle after the command cycle — the cycle that observes the
counter at 0 — the bus transitions to Flush and drives the first FLUSH word,
carrying word 0 of the block read from main memory. -/
theorem c7_memory_latency (s : SimState) (w : Fin 4)
    (h0 : s.bus.phase = 0)
    (harb : arb_choose s.requests s.rr_next = some w)
    (hnv : ∀ i : Fin 4, (s.cores i).mem.valid = false)
    (hM : ∀ i : Fin 4, (i : Nat) ≠ (s.requests w).origin →
      ¬ lineME (s.cores i).cache (cache_tag (s.requests w).addr)
        (cache_index (s.requests w).addr)) :
    ((phase_arb (phase_pipe (phase_wb s))).bus.delay = 16 ∧
     (phase_arb (phase_pipe (phase_wb s))).bus.provider = 4 ∧
     (sim_step s).bus.phase = 1 ∧
     (sim_step s).bus.bus_cmd_out = (s.requests w).cmd ∧
     (sim_step s).bus.delay = 15 ∧
     (sim_step s).bus.block =
       fun j => s.mem ((block_base (s.requests w).addr + j) % 2 ^ 20)) ∧
    (∀ k, 1 ≤ k → k ≤ 15 →
      (sim_step^[k] (sim_step s)).bus.phase = 1 ∧
      (sim_step^[k] (sim_step s)).bus.delay = 15 - k ∧
      (sim_step^[k] (sim_step s)).bus.bus_cmd_out = BUS_NONE) ∧
    ((sim_step^[15] (sim_step s)).bus.delay = 0 ∧
     (sim_step^[16] (sim_step s)).bus.phase = 2 ∧
     (sim_step^[16] (sim_step s)).bus.bus_cmd_out = BUS_FLUSH ∧
     (sim_step^[16] (sim_step s)).bus.index = 1 ∧
     (sim_step^[16] (sim_step s)).bus.bus_data_out =
       s.mem (block_base (s.requests w).addr % 2 ^ 20)) := by
  have hreq : (phase_pipe (phase_wb s)).requests = s.requests := by
    funext i
    show (core_cycle (wb_commit (s.cores i)) (s.requests i)).2 = s.requests i
    rw [core_cycle_slot_out]
    exact mem_stage_slot_invalid _ _ _
      (by rw [(wb_commit_frame (s.cores i)).2.1]; exact hnv i)
  have ht0 : (phase_pipe (phase_wb s)).bus.phase = 0 := by
    show (reset_bus_out s.bus).phase = 0
    rw [(reset_bus_out_fields s.bus).1]
    exact h0
  have harb2 : arb_choose (phase_pipe (phase_wb s)).requests
      (phase_pipe (phase_wb s)).rr_next = some w := by
    rw [hreq]; exact harb
  have hA := phase_arb_start (phase_pipe (phase_wb s)) w ht0 harb2
  rw [hreq] at hA
  have hMt : ∀ i : Fin 4, (i : Nat) ≠ (s.requests w).origin →
      ¬ lineM ((phase_pipe (phase_wb s)).cores i).cache
        (cache_tag (s.requests w).addr) (cache_index (s.requests w).addr) := by
    intro i hi hMi
    have h1 : lineME ((phase_pipe (phase_wb s)).cores i).cache
        (cache_tag (s.requests w).addr) (cache_index (s.requests w).addr) :=
      ⟨hMi.1, Or.inl hMi.2⟩
    have h2 : lineME (wb_commit (s.cores i)).cache
        (cache_tag (s.requests w).addr) (cache_index (s.requests w).addr) :=
      (core_cycle_lineME (wb_commit (s.cores i)) (s.requests i) _ _).1 h1
    rw [(wb_commit_frame (s.cores i)).1] at h2
    exact hM i hi h2
  obtain ⟨hprov, hdel, hblk⟩ := start_bus_memory (phase_pipe (phase_wb s)).bus
      (s.requests w) (phase_pipe (phase_wb s)).cores (phase_pipe (phase_wb s)).mem hMt
  have hfld := start_bus_fields (phase_pipe (phase_wb s)).bus (s.requests w)
      (phase_pipe (phase_wb s)).cores (phase_pipe (phase_wb s)).mem
  have hB : (phase_arb (phase_pipe (phase_wb s))).bus =
      (start_bus_transaction (phase_pipe (phase_wb s)).bus (s.requests w)
        (phase_pipe (phase_wb s)).cores (phase_pipe (phase_wb s)).mem).1 := by
    rw [hA]
  have hnot2 : ¬((start_bus_transaction (phase_pipe (phase_wb s)).bus (s.requests w)
      (phase_pipe (phase_wb s)).cores (phase_pipe (phase_wb s)).mem).1.phase = 2) := by
    rw [hfld.1]; omega
  have hnotf : ¬((start_bus_transaction (phase_pipe (phase_wb s)).bus (s.requests w)
      (phase_pipe (phase_wb s)).cores (phase_pipe (phase_wb s)).mem).1.phase = 1 ∧
      (start_bus_transaction (phase_pipe (phase_wb s)).bus (s.requests w)
        (phase_pipe (phase_wb s)).cores (phase_pipe (phase_wb s)).mem).1.delay = 0 ∧
      (start_bus_transaction (phase_pipe (phase_wb s)).bus (s.requests w)
        (phase_pipe (phase_wb s)).cores
        (phase_pipe (phase_wb s)).mem).1.bus_cmd_out = BUS_NONE) := by
    rintro ⟨_, hd, _⟩
    rw [hdel] at hd
    omega
  have hdrive : bus_drive (start_bus_transaction (phase_pipe (phase_wb s)).bus
      (s.requests w) (phase_pipe (phase_wb s)).cores (phase_pipe (phase_wb s)).mem).1 =
      (start_bus_transaction (phase_pipe (phase_wb s)).bus (s.requests w)
        (phase_pipe (phase_wb s)).cores (phase_pipe (phase_wb s)).mem).1 := by
    unfold bus_drive
    rw [if_neg hnot2, if_neg hnotf]
  have hs1 : (sim_step s).bus =
      { (start_bus_transaction (phase_pipe (phase_wb s)).bus (s.requests w)
          (phase_pipe (phase_wb s)).cores
          (phase_pipe (phase_wb s)).mem).1 with delay := 15 } := by
    show (phase_adv (phase_drive (phase_arb (phase_pipe (phase_wb s))))).bus = _
    rw [hA]
    dsimp only [phase_drive, phase_adv]
    rw [hdrive, bus_advance_wait _ _ _ hfld.1 (by rw [hdel]; omega)]
    simp [hdel]
  have h15 : (sim_step s).bus.delay = 15 := by rw [hs1]
  have hblk1 : (sim_step s).bus.block =
      fun j => s.mem ((block_base (s.requests w).addr + j) % 2 ^ 20) := by
    rw [hs1]; exact hblk
  have hiter := sim_step_wait_iter (sim_step s) (by rw [hs1]; exact hfld.1)
  refine ⟨⟨by rw [hB]; exact hdel, by rw [hB]; exact hprov, by rw [hs1]; exact hfld.1,
    by rw [hs1]; exact hfld.2.2.2.2.1, h15, hblk1⟩, ?_, ?_⟩
  · intro k hk1 hk15
    obtain ⟨ip, idl, -, -, -, -, -, icmd⟩ := hiter k (by rw [h15]; omega)
    refine ⟨ip, ?_, icmd hk1⟩
    rw [idl, h15]
  · obtain ⟨ip15, idl15, -, -, -, -, ib15, -⟩ := hiter 15 (by rw [h15])
    have hdl0 : (sim_step^[15] (sim_step s)).bus.delay = 0 := by rw [idl15, h15]
    have hfire := sim_step_fire_bus (sim_step^[15] (sim_step s)) ip15 hdl0
    have h16 : sim_step^[16] (sim_step s) = sim_step (sim_step^[15] (sim_step s)) :=
      Function.iterate_succ_apply' sim_step 15 (sim_step s)
    refine ⟨hdl0, ?_, ?_, ?_, ?_⟩
    · rw [h16, hfire]
    · rw [h16, hfire]
    · rw [h16, hfire]
    · have e1 : (sim_step^[16] (sim_step s)).bus.bus_data_out =
          (sim_step^[15] (sim_step s)).bus.block 0 := by
        rw [h16, hfire]
      rw [e1, ib15, hblk1]
      show s.mem ((block_base (s.requests w).addr + 0) % 2 ^ 20) = _
      rw [Nat.add_zero]

/-- An idle-bus state with empty caches and a single pending BusRd request in
slot 0. -/
def c7_state : SimState :=
  { init_state (fun _ _ => 0) (fun _ => 0) with
      requests := fun i =>
        if i = 0 then { active := true, cmd := BUS_RD, addr := 32, origin := 0 }
        else { active := false, cmd := 0, addr := 0, origin := 0 } }

/-- Witness for C7: slot 0 requests block 32 of an all-Invalid system, so the
fill is memory-sourced with the full 16-cycle latency. -/
theorem c7_memory_latency_witness :
    (c7_state.bus.phase = 0 ∧
     arb_choose c7_state.requests c7_state.rr_next = some 0 ∧
     (∀ i : Fin 4, (c7_state.cores i).mem.valid = false) ∧
     (∀ i : Fin 4, (i : Nat) ≠ (c7_state.requests 0).origin →
       ¬ lineME (c7_state.cores i).cache (cache_tag (c7_state.requests 0).addr)
         (cache_index (c7_state.requests 0).addr))) ∧
    (((phase_arb (phase_pipe (phase_wb c7_state))).bus.delay = 16 ∧
      (phase_arb (phase_pipe (phase_wb c7_state))).bus.provider = 4 ∧
      (sim_step c7_state).bus.phase = 1 ∧
      (sim_step c7_state).bus.bus_cmd_out = (c7_state.requests 0).cmd ∧
      (sim_step c7_state).bus.delay = 15 ∧
      (sim_step c7_state).bus.block =
        fun j => c7_state.mem ((block_base (c7_state.requests 0).addr + j) % 2 ^ 20)) ∧
     (∀ k, 1 ≤ k → k ≤ 15 →
       (sim_step^[k] (sim_step c7_state)).bus.phase = 1 ∧
       (sim_step^[k] (sim_step c7_state)).bus.delay = 15 - k ∧
       (sim_step^[k] (sim_step c7_state)).bus.bus_cmd_out = BUS_NONE) ∧
     ((sim_step^[15] (sim_step c7_state)).bus.delay = 0 ∧
      (sim_step^[16] (sim_step c7_state)).bus.phase = 2 ∧
      (sim_step^[16] (sim_step c7_state)).bus.bus_cmd_out = BUS_FLUSH ∧
      (sim_step^[16] (sim_step c7_state)).bus.index = 1 ∧
      (sim_step^[16] (sim_step c7_state)).bus.bus_data_out =
        c7_state.mem (block_base (c7_state.requests 0).addr % 2 ^ 20))) :=
  ⟨⟨rfl, by decide, by decide, by decide⟩,
   c7_memory_latency c7_state 0 rfl (by decide) (by decide) (by decide)⟩

-- ===================== Claim C4: branch redirect and delay slot =====================

/-- C4 (amended): when a taken conditional branch or a JAL leaves Decode,
redirect_pc is set to regs[rd] mod 1024 computed from this cycle's register
read, with R1 mirroring the branch's immediate; the instruction currently in
the Fetch latch — the delay slot — moves into Decode (it is the instruction at
the branch's pc + 1 only when Fetch last advanced sequentially, not after an
earlier redirect); the branch itself moves to Execute carrying the values just
read; when fetch is not stopped, the same cycle fetches the instruction at
redirect_pc, pc becomes redirect_pc + 1 mod 1024 and the pending flag is
consumed; with fetch stopped the redirect stays latched. -/
theorem c4_branch_redirect (c : Core) (sl : BusRequest)
    (hdm : decode_moves_flag c = true)
    (htk : (OP_BEQ ≤ c.decode.inst.op ∧ c.decode.inst.op ≤ OP_BGE ∧
        perform_compare c.decode.inst
          (Function.update c.regs 1 (to_uint32 c.decode.inst.imm) c.decode.inst.rs)
          (Function.update c.regs 1 (to_uint32 c.decode.inst.imm) c.decode.inst.rt)
          = true) ∨
      c.decode.inst.op = OP_JAL) :
    (core_cycle c sl).1.redirect_pc =
      Function.update c.regs 1 (to_uint32 c.decode.inst.imm) c.decode.inst.rd % 2 ^ 10 ∧
    (c.fetch.valid = true →
      (core_cycle c sl).1.decode = { valid := true, inst := c.fetch.inst }) ∧
    (core_cycle c sl).1.exec =
      { valid := true, inst := c.decode.inst,
        rs_val := Function.update c.regs 1 (to_uint32 c.decode.inst.imm) c.decode.inst.rs,
        rt_val := Function.update c.regs 1 (to_uint32 c.decode.inst.imm) c.decode.inst.rt,
        rd_val := Function.update c.regs 1 (to_uint32 c.decode.inst.imm)
          c.decode.inst.rd } ∧
    (c.stop_fetch = false →
      (core_cycle c sl).1.fetch =
        { valid := true,
          inst := decode_inst
            (c.imem (Function.update c.regs 1 (to_uint32 c.decode.inst.imm)
              c.decode.inst.rd % 2 ^ 10))
            (Function.update c.regs 1 (to_uint32 c.decode.inst.imm)
              c.decode.inst.rd % 2 ^ 10) } ∧
      (core_cycle c sl).1.pc =
        (Function.update c.regs 1 (to_uint32 c.decode.inst.imm) c.decode.inst.rd % 2 ^ 10
          + 1) % 2 ^ 10 ∧
      (core_cycle c sl).1.redirect_pending = false) ∧
    (c.stop_fetch = true → (core_cycle c sl).1.redirect_pending = true) := by
  have hdm2 := hdm
  unfold decode_moves_flag at hdm2
  rw [Bool.and_eq_true, Bool.and_eq_true] at hdm2
  obtain ⟨⟨hdv, hhz⟩, hef⟩ := hdm2
  rw [Bool.not_eq_true'] at hhz
  unfold exec_free_flag at hef
  have hnbr : ¬(OP_BEQ ≤ OP_JAL ∧ OP_JAL ≤ OP_BGE) := by decide
  unfold core_cycle
  dsimp only
  simp only [mem_stage_advances]
  rcases Bool.eq_false_or_eq_true c.exec.valid with hev | hev
  · rw [hev] at hef
    have hef2 : (!c.mem.valid || mem_advances_flag c) = true := by simpa using hef
    rcases Bool.eq_false_or_eq_true c.mem.valid with hmv | hmv
    · rw [hmv] at hef2
      have hma : mem_advances_flag c = true := by simpa using hef2
      rcases htk with ⟨hb1, hb2, hcmp⟩ | hj
      · simp +contextual [hdv, hhz, hev, hmv, hma, hb1, hb2, hcmp]
        intro _
        rcases Bool.eq_false_or_eq_true c.fetch.valid with hfv | hfv <;> simp [hfv]
      · simp +contextual [hdv, hhz, hev, hmv, hma, hj, hnbr]
        intro _
        rcases Bool.eq_false_or_eq_true c.fetch.valid with hfv | hfv <;> simp [hfv]
    · rcases htk with ⟨hb1, hb2, hcmp⟩ | hj
      · simp +contextual [hdv, hhz, hev, hmv, hb1, hb2, hcmp]
        intro _
        rcases Bool.eq_false_or_eq_true c.fetch.valid with hfv | hfv <;> simp [hfv]
      · simp +contextual [hdv, hhz, hev, hmv, hj, hnbr]
        intro _
        rcases Bool.eq_false_or_eq_true c.fetch.valid with hfv | hfv <;> simp [hfv]
  · rcases htk with ⟨hb1, hb2, hcmp⟩ | hj
    · simp +contextual [hdv, hhz, hev, hb1, hb2, hcmp]
      intro _
      rcases Bool.eq_false_or_eq_true c.fetch.valid with hfv | hfv <;> simp [hfv]
    · simp +contextual [hdv, hhz, hev, hj, hnbr]
      intro _
      rcases Bool.eq_false_or_eq_true c.fetch.valid with hfv | hfv <;> simp [hfv]

/-- Two always-taken branches back to back: BEQ R1, R0, R0 with immediate 4 at
address 0 and immediate 6 at address 1 (R0 = R0 always holds, and the target
register R1 carries the immediate). -/
def c4_imem : Nat → Nat :=
  fun a => if a = 0 then 0x09100004 else if a = 1 then 0x09100006 else 0

def c4_start : SimState := init_state (fun _ => c4_imem) (fun _ => 0)

/-- Core 0 two cycles in: the branch at address 1 — fetched as the delay slot
of the taken branch at address 0 — now leaves Decode, while Fetch holds the
instruction at the first branch's target 4. -/
def c4_core : Core := (sim_step (sim_step c4_start)).cores 0

def c4_slot : BusRequest := { active := false, cmd := 0, addr := 0, origin := 0 }

/-- Counterexample to C4 as stated: in a reachable state a taken branch leaves
Decode while the Fetch latch holds the instruction at address 4 (the previous
branch's target), not the instruction at the branch's own pc + 1 = 2. -/
theorem c4_counterexample :
    Reach (fun _ => c4_imem) (fun _ => 0) (sim_step (sim_step c4_start)) ∧
    (c4_core.decode.valid = true ∧
     decode_moves_flag c4_core = true ∧
     OP_BEQ ≤ c4_core.decode.inst.op ∧ c4_core.decode.inst.op ≤ OP_BGE ∧
     perform_compare c4_core.decode.inst
       (Function.update c4_core.regs 1 (to_uint32 c4_core.decode.inst.imm)
         c4_core.decode.inst.rs)
       (Function.update c4_core.regs 1 (to_uint32 c4_core.decode.inst.imm)
         c4_core.decode.inst.rt) = true ∧
     c4_core.fetch.valid = true) ∧
    c4_core.fetch.inst.pc ≠ (c4_core.decode.inst.pc + 1) % 2 ^ 10 :=
  ⟨Reach.step (Reach.step Reach.init), by decide, by decide⟩

/-- Witness for the amended C4 at the concrete core above. -/
theorem c4_branch_redirect_witness :
    (decode_moves_flag c4_core = true ∧
     ((OP_BEQ ≤ c4_core.decode.inst.op ∧ c4_core.decode.inst.op ≤ OP_BGE ∧
        perform_compare c4_core.decode.inst
          (Function.update c4_core.regs 1 (to_uint32 c4_core.decode.inst.imm)
            c4_core.decode.inst.rs)
          (Function.update c4_core.regs 1 (to_uint32 c4_core.decode.inst.imm)
            c4_core.decode.inst.rt) = true) ∨
       c4_core.decode.inst.op = OP_JAL)) ∧
    ((core_cycle c4_core c4_slot).1.redirect_pc =
      Function.update c4_core.regs 1 (to_uint32 c4_core.decode.inst.imm)
        c4_core.decode.inst.rd % 2 ^ 10 ∧
     (c4_core.fetch.valid = true →
       (core_cycle c4_core c4_slot).1.decode = { valid := true, inst := c4_core.fetch.inst }) ∧
     (core_cycle c4_core c4_slot).1.exec =
       { valid := true, inst := c4_core.decode.inst,
         rs_val := Function.update c4_core.regs 1 (to_uint32 c4_core.decode.inst.imm)
           c4_core.decode.inst.rs,
         rt_val := Function.update c4_core.regs 1 (to_uint32 c4_core.decode.inst.imm)
           c4_core.decode.inst.rt,
         rd_val := Function.update c4_core.regs 1 (to_uint32 c4_core.decode.inst.imm)
           c4_core.decode.inst.rd } ∧
     (c4_core.stop_fetch = false →
       (core_cycle c4_core c4_slot).1.fetch =
         { valid := true,
           inst := decode_inst
             (c4_core.imem (Function.update c4_core.regs 1 (to_uint32 c4_core.decode.inst.imm)
               c4_core.decode.inst.rd % 2 ^ 10))
             (Function.update c4_core.regs 1 (to_uint32 c4_core.decode.inst.imm)
               c4_core.decode.inst.rd % 2 ^ 10) } ∧
       (core_cycle c4_core c4_slot).1.pc =
         (Function.update c4_core.regs 1 (to_uint32 c4_core.decode.inst.imm)
           c4_core.decode.inst.rd % 2 ^ 10 + 1) % 2 ^ 10 ∧
       (core_cycle c4_core c4_slot).1.redirect_pending = false) ∧
     (c4_core.stop_fetch = true → (core_cycle c4_core c4_slot).1.redirect_pending = true)) :=
  ⟨⟨by decide, by decide⟩, c4_branch_redirect c4_core c4_slot (by decide) (by decide)⟩

-- ===================== Claim C8: reserved registers =====================

/-- Writeback never targets R0 or R1: every destination dest_reg reports is
at least 2 (sim.c lines 198-209, 602-613). -/
theorem dest_reg_ge2 (inst : Instruction) (d : Nat) (h : dest_reg inst = some d) :
    2 ≤ d := by
  unfold dest_reg at h
  split_ifs at h <;> simp_all <;> omega

/-- Register-file effect of one pipeline cycle: R0 is untouched; R1 ends the
cycle holding the immediate of the instruction that occupied Decode during the
cycle, and is untouched when Decode was empty. -/
theorem core_cycle_regs (c : Core) (sl : BusRequest) :
    (core_cycle c sl).1.regs 0 = c.regs 0 ∧
    (c.decode.valid = true →
      (core_cycle c sl).1.regs 1 = to_uint32 c.decode.inst.imm) ∧
    (c.decode.valid = false →
      (core_cycle c sl).1.regs 1 = c.regs 1) := by
  unfold core_cycle
  dsimp only
  refine ⟨?_, ?_, ?_⟩
  · split_ifs <;> simp [Function.update_apply]
  · intro hdv
    split_ifs <;> simp_all [Function.update_apply]
  · intro hdv
    split_ifs <;> simp_all [Function.update_apply]

theorem complete_cores_regs (b : BusState) (cs : Fin 4 → Core) (m : Nat → Nat)
    (i : Fin 4) : ((complete_transaction b cs m).1 i).regs = (cs i).regs := by
  unfold complete_transaction
  dsimp only
  by_cases h : b.origin < 4
  · rw [dif_pos h]
    dsimp only
    rcases Decidable.em (i = (⟨b.origin, h⟩ : Fin 4)) with hi | hi
    · subst hi
      rw [Function.update_same]
    · rw [Function.update_noteq hi]
  · rw [dif_neg h]

/-- Only the pipeline phase writes the register file in a cycle. -/
theorem sim_step_regs (s : SimState) (i : Fin 4) :
    ((sim_step s).cores i).regs =
      (core_cycle (wb_commit (s.cores i)) (s.requests i)).1.regs := by
  have harb : ((phase_arb (phase_pipe (phase_wb s))).cores i).regs =
      ((phase_pipe (phase_wb s)).cores i).regs := by
    unfold phase_arb
    by_cases hp : (phase_pipe (phase_wb s)).bus.phase = 0
    · rw [if_pos hp]
      rcases hc : arb_choose (phase_pipe (phase_wb s)).requests
          (phase_pipe (phase_wb s)).rr_next with _ | w
      · rfl
      · dsimp only
        rw [start_bus_core_fields]
    · rw [if_neg hp]
  have hadv : ∀ (st : SimState) (j : Fin 4),
      ((phase_adv st).cores j).regs = (st.cores j).regs := by
    intro st j
    unfold phase_adv bus_advance
    dsimp only
    split_ifs <;> first | rfl | (exact complete_cores_regs _ _ _ j)
  show ((phase_adv (phase_drive (phase_arb (phase_pipe (phase_wb s))))).cores i).regs = _
  rw [hadv]
  show ((phase_arb (phase_pipe (phase_wb s))).cores i).regs = _
  rw [harb]
  rfl

theorem sim_step_regs0 (s : SimState) (i : Fin 4) (h : (s.cores i).regs 0 = 0) :
    ((sim_step s).cores i).regs 0 = 0 := by
  have h1 := congrFun (sim_step_regs s i) 0
  rw [h1, (core_cycle_regs (wb_commit (s.cores i)) (s.requests i)).1,
    wb_commit_regs (s.cores i) 0 (by omega)]
  exact h

/-- C8 (amended): on every reachable state, R0 is 0 in every core; Writeback
never commits to R0 or R1 (every destination is at least 2); and R1 tracks
Decode with a one-cycle phase: during a cycle whose Decode latch holds an
instruction, the cycle ends with R1 equal to that instruction's immediate,
while a cycle with an empty Decode leaves R1 unchanged.  At a cycle boundary
R1 therefore holds the immediate of the instruction that occupied Decode in
the cycle just finished — not the immediate of the instruction newly latched
into Decode. -/
theorem c8_register_invariants (imems : Fin 4 → Nat → Nat) (mem0 : Nat → Nat)
    (s : SimState) (hs : Reach imems mem0 s) :
    (∀ i : Fin 4, (s.cores i).regs 0 = 0) ∧
    (∀ (inst : Instruction) (d : Nat), dest_reg inst = some d → 2 ≤ d) ∧
    (∀ i : Fin 4, (s.cores i).decode.valid = true →
      ((sim_step s).cores i).regs 1 = to_uint32 (s.cores i).decode.inst.imm) ∧
    (∀ i : Fin 4, (s.cores i).decode.valid = false →
      ((sim_step s).cores i).regs 1 = (s.cores i).regs 1) := by
  refine ⟨?_, fun inst d h => dest_reg_ge2 inst d h, ?_, ?_⟩
  · induction hs with
    | init => intro i; rfl
    | step hr ih => exact fun i => sim_step_regs0 _ i (ih i)
  · intro i hdv
    have h1 := congrFun (sim_step_regs s i) 1
    have hd : (wb_commit (s.cores i)).decode = (s.cores i).decode :=
      (wb_commit_frame (s.cores i)).2.2.1
    rw [h1, (core_cycle_regs (wb_commit (s.cores i)) (s.requests i)).2.1
      (by rw [hd]; exact hdv), hd]
  · intro i hdv
    have h1 := congrFun (sim_step_regs s i) 1
    have hd : (wb_commit (s.cores i)).decode = (s.cores i).decode :=
      (wb_commit_frame (s.cores i)).2.2.1
    rw [h1, (core_cycle_regs (wb_commit (s.cores i)) (s.requests i)).2.2
      (by rw [hd]; exact hdv), wb_commit_regs (s.cores i) 1 (by omega)]

/-- A single instruction with immediate 5 (raw word 5 decodes with imm 5). -/
def c8_imem : Nat → Nat := fun a => if a = 0 then 5 else 0

def c8_start : SimState := init_state (fun _ => c8_imem) (fun _ => 0)

/-- Counterexample to C8 as stated: one cycle in, the instruction with
immediate 5 has just been latched into Decode, but R1 still reads 0 — R1 does
not yet equal the immediate of the instruction currently held in the Decode
latch. -/
theorem c8_counterexample :
    Reach (fun _ => c8_imem) (fun _ => 0) (sim_step c8_start) ∧
    ((sim_step c8_start).cores 0).decode.valid = true ∧
    to_uint32 (((sim_step c8_start).cores 0).decode.inst.imm) = 5 ∧
    ((sim_step c8_start).cores 0).regs 1 = 0 :=
  ⟨Reach.step Reach.init, by decide, by decide, by decide⟩

/-- Witness for the amended C8 at the all-zero initial state. -/
theorem c8_register_invariants_witness :
    Reach (fun _ _ => 0) (fun _ => 0) (init_state (fun _ _ => 0) (fun _ => 0)) ∧
    ((∀ i : Fin 4, ((init_state (fun _ _ => 0) (fun _ => 0)).cores i).regs 0 = 0) ∧
     (∀ (inst : Instruction) (d : Nat), dest_reg inst = some d → 2 ≤ d) ∧
     (∀ i : Fin 4,
       ((init_state (fun _ _ => 0) (fun _ => 0)).cores i).decode.valid = true →
       ((sim_step (init_state (fun _ _ => 0) (fun _ => 0))).cores i).regs 1 =
         to_uint32 ((init_state (fun _ _ => 0) (fun _ => 0)).cores i).decode.inst.imm) ∧
     (∀ i : Fin 4,
       ((init_state (fun _ _ => 0) (fun _ => 0)).cores i).decode.valid = false →
       ((sim_step (init_state (fun _ _ => 0) (fun _ => 0))).cores i).regs 1 =
         ((init_state (fun _ _ => 0) (fun _ => 0)).cores i).regs 1)) :=
  ⟨Reach.init, c8_register_invariants (fun _ _ => 0) (fun _ => 0) _ Reach.init⟩

-- ===================== Claim C3: MESI exclusivity invariant =====================

/-- All MESI state fields are in range (I, S, E, M). -/
def StOK (cs : Fin 4 → Core) : Prop :=
  ∀ (i : Fin 4) (k : Nat), (cs i).cache.state k < 4

/-- Single-modifier exclusivity: per line, at most one cache in M or E, and an
E holder excludes every non-Invalid copy elsewhere. -/
def CacheCoh (cs : Fin 4 → Core) : Prop :=
  ∀ t k : Nat,
    (∀ i j : Fin 4, i ≠ j →
      lineME (cs i).cache t k → ¬ lineME (cs j).cache t k) ∧
    (∀ i j : Fin 4, i ≠ j →
      lineE (cs i).cache t k → ¬ lineNonI (cs j).cache t k)

/-- What the snoop at transaction start guarantees about non-origin caches
while the bus is busy. -/
def BusOK (s : SimState) : Prop :=
  s.bus.phase ≠ 0 →
    ((s.bus.cmd = BUS_RD ∨ s.bus.cmd = BUS_RDX) ∧
     (s.bus.cmd = BUS_RDX →
       ∀ j : Fin 4, (j : Nat) ≠ s.bus.origin →
         ¬ lineNonI (s.cores j).cache (cache_tag s.bus.addr) (cache_index s.bus.addr)) ∧
     (s.bus.cmd = BUS_RD →
       (∀ j : Fin 4, (j : Nat) ≠ s.bus.origin →
          ¬ lineME (s.cores j).cache (cache_tag s.bus.addr) (cache_index s.bus.addr)) ∧
       (s.bus.shared = 0 →
         ∀ j : Fin 4, (j : Nat) ≠ s.bus.origin →
           ¬ lineNonI (s.cores j).cache (cache_tag s.bus.addr) (cache_index s.bus.addr))))

/-- Active request slots carry a read or read-exclusive command. -/
def ReqOK (s : SimState) : Prop :=
  ∀ i : Fin 4, (s.requests i).active = true →
    ((s.requests i).cmd = BUS_RD ∨ (s.requests i).cmd = BUS_RDX)

/-- The system invariant: state range, coherence, bus-snoop facts, slot facts. -/
def SysInv (s : SimState) : Prop :=
  StOK s.cores ∧ CacheCoh s.cores ∧ BusOK s ∧ ReqOK s

/-- The snoop reaction on a matched line in a state outside M, E and the
S-with-BusRdX case leaves the cache unchanged. -/
theorem apply_snoop_other (c : Cache) (id origin cmd addr : Nat) (acc : SnoopAcc)
    (h : id ≠ origin) (htag : c.tag (cache_index addr) = cache_tag addr)
    (hne : c.state (cache_index addr) ≠ MESI_I)
    (hM : c.state (cache_index addr) ≠ MESI_M)
    (hE : c.state (cache_index addr) ≠ MESI_E)
    (hSx : ¬(c.state (cache_index addr) = MESI_S ∧ cmd = BUS_RDX)) :
    apply_snoop c id origin cmd addr acc = (c, { acc with shared := 1 }) := by
  unfold apply_snoop
  dsimp only
  rw [if_neg h, if_neg (by tauto), if_neg hM, if_neg hE, if_neg hSx]

/-- The snoop only demotes: a line keeps its tag and its state either stays,
drops to S from a non-Invalid state, or drops to I. -/
theorem apply_snoop_demote (c : Cache) (id origin cmd addr : Nat) (acc : SnoopAcc) :
    (apply_snoop c id origin cmd addr acc).1.tag = c.tag ∧
    ∀ k, (apply_snoop c id origin cmd addr acc).1.state k = c.state k ∨
      ((apply_snoop c id origin cmd addr acc).1.state k = MESI_S ∧ c.state k ≠ MESI_I) ∨
      (apply_snoop c id origin cmd addr acc).1.state k = MESI_I := by
  by_cases h : id = origin
  · rw [apply_snoop_skip c id origin cmd addr acc h]
    exact ⟨rfl, fun k => Or.inl rfl⟩
  by_cases hnm : lineNonI c (cache_tag addr) (cache_index addr)
  · obtain ⟨htag, hsne⟩ := hnm
    by_cases hM : c.state (cache_index addr) = MESI_M
    · rw [apply_snoop_M c id origin cmd addr acc h htag hM]
      refine ⟨rfl, fun k => ?_⟩
      rcases Decidable.em (k = cache_index addr) with hk | hk
      · subst hk
        rcases Decidable.em (cmd = BUS_RD) with hc | hc
        · refine Or.inr (Or.inl ⟨?_, hsne⟩)
          show Function.update c.state (cache_index addr)
            (if cmd = BUS_RD then MESI_S else MESI_I) (cache_index addr) = MESI_S
          rw [Function.update_same, if_pos hc]
        · refine Or.inr (Or.inr ?_)
          show Function.update c.state (cache_index addr)
            (if cmd = BUS_RD then MESI_S else MESI_I) (cache_index addr) = MESI_I
          rw [Function.update_same, if_neg hc]
      · exact Or.inl (Function.update_noteq hk _ _)
    by_cases hE : c.state (cache_index addr) = MESI_E
    · rw [apply_snoop_E c id origin cmd addr acc h htag hE]
      refine ⟨rfl, fun k => ?_⟩
      rcases Decidable.em (k = cache_index addr) with hk | hk
      · subst hk
        rcases Decidable.em (cmd = BUS_RD) with hc | hc
        · refine Or.inr (Or.inl ⟨?_, hsne⟩)
          show Function.update c.state (cache_index addr)
            (if cmd = BUS_RD then MESI_S else MESI_I) (cache_index addr) = MESI_S
          rw [Function.update_same, if_pos hc]
        · refine Or.inr (Or.inr ?_)
          show Function.update c.state (cache_index addr)
            (if cmd = BUS_RD then MESI_S else MESI_I) (cache_index addr) = MESI_I
          rw [Function.update_same, if_neg hc]
      · exact Or.inl (Function.update_noteq hk _ _)
    by_cases hS : c.state (cache_index addr) = MESI_S
    · by_cases hc : cmd = BUS_RDX
      · rw [apply_snoop_S_rdx c id origin cmd addr acc h htag hS hc]
        refine ⟨rfl, fun k => ?_⟩
        rcases Decidable.em (k = cache_index addr) with hk | hk
        · subst hk
          exact Or.inr (Or.inr (Function.update_same _ _ _))
        · exact Or.inl (Function.update_noteq hk _ _)
      · rw [apply_snoop_S_rd c id origin cmd addr acc h htag hS hc]
        exact ⟨rfl, fun k => Or.inl rfl⟩
    · rw [apply_snoop_other c id origin cmd addr acc h htag hsne hM hE (by tauto)]
      exact ⟨rfl, fun k => Or.inl rfl⟩
  · rw [apply_snoop_nomatch c id origin cmd addr acc h hnm]
    exact ⟨rfl, fun k => Or.inl rfl⟩

/-- Coherence transfers backwards along per-core line-demoting cache maps. -/
theorem CacheCoh_mono (cs cs' : Fin 4 → Core)
    (hME : ∀ (i : Fin 4) (t k : Nat), lineME (cs' i).cache t k → lineME (cs i).cache t k)
    (hNonI : ∀ (i : Fin 4) (t k : Nat),
      lineNonI (cs' i).cache t k → lineNonI (cs i).cache t k)
    (hE : ∀ (i : Fin 4) (t k : Nat), lineE (cs' i).cache t k → lineE (cs i).cache t k)
    (hc : CacheCoh cs) : CacheCoh cs' := by
  intro t k
  refine ⟨fun i j hij hMEi hMEj =>
      (hc t k).1 i j hij (hME i t k hMEi) (hME j t k hMEj),
    fun i j hij hEi hNj => (hc t k).2 i j hij (hE i t k hEi) (hNonI j t k hNj)⟩

/-- Line predicates transfer backwards along a single demote step. -/
theorem demote_lines (c c' : Cache) (htag : c'.tag = c.tag)
    (hst : ∀ k, c'.state k = c.state k ∨
      (c'.state k = MESI_S ∧ c.state k ≠ MESI_I) ∨ c'.state k = MESI_I) :
    ∀ t k, (lineME c' t k → lineME c t k) ∧
      (lineNonI c' t k → lineNonI c t k) ∧ (lineE c' t k → lineE c t k) := by
  intro t k
  refine ⟨fun hx => ⟨by rw [← htag]; exact hx.1, ?_⟩,
    fun hx => ⟨by rw [← htag]; exact hx.1, ?_⟩,
    fun hx => ⟨by rw [← htag]; exact hx.1, ?_⟩⟩
  · rcases hst k with h | ⟨h, _⟩ | h
    · rw [← h]; exact hx.2
    · exfalso
      rcases hx.2 with hm | hm <;>
        (rw [h] at hm; simp only [MESI_S, MESI_M, MESI_E] at hm; omega)
    · exfalso
      rcases hx.2 with hm | hm <;>
        (rw [h] at hm; simp only [MESI_I, MESI_M, MESI_E] at hm; omega)
  · rcases hst k with h | ⟨h, hne⟩ | h
    · rw [← h]; exact hx.2
    · exact hne
    · exact absurd h hx.2
  · rcases hst k with h | ⟨h, _⟩ | h
    · rw [← h]; exact hx.2
    · exfalso
      have := hx.2
      rw [h] at this
      simp only [MESI_S, MESI_E] at this
      omega
    · exfalso
      have := hx.2
      rw [h] at this
      simp only [MESI_I, MESI_E] at this
      omega

/-- A winner returned by the round-robin scan was an active slot. -/
theorem arb_choose_active (requests : Fin 4 → BusRequest) (rr : Nat) (w : Fin 4)
    (h : arb_choose requests rr = some w) : (requests w).active = true := by
  unfold arb_choose at h
  rw [show List.range 4 = [0, 1, 2, 3] from rfl] at h
  simp only [List.findSome?] at h
  split_ifs at h <;> simp_all

theorem pipe_cores_cache (s : SimState) (i : Fin 4) :
    ((phase_pipe (phase_wb s)).cores i).cache =
      (core_cycle (wb_commit (s.cores i)) (s.requests i)).1.cache := rfl

theorem pipe_lineME (s : SimState) (i : Fin 4) (t k : Nat) :
    lineME ((phase_pipe (phase_wb s)).cores i).cache t k ↔
      lineME (s.cores i).cache t k := by
  rw [pipe_cores_cache, core_cycle_lineME, (wb_commit_frame (s.cores i)).1]

theorem pipe_lineNonI (s : SimState) (i : Fin 4) (t k : Nat) :
    lineNonI ((phase_pipe (phase_wb s)).cores i).cache t k ↔
      lineNonI (s.cores i).cache t k := by
  rw [pipe_cores_cache, core_cycle_lineNonI, (wb_commit_frame (s.cores i)).1]

theorem pipe_lineE_rev (s : SimState) (i : Fin 4) (t k : Nat) :
    lineE ((phase_pipe (phase_wb s)).cores i).cache t k →
      lineE (s.cores i).cache t k := by
  rw [pipe_cores_cache]
  intro h
  have h2 := core_cycle_lineE_rev _ _ _ _ h
  rwa [(wb_commit_frame (s.cores i)).1] at h2

/-- The write-back and pipeline phases preserve the system invariant: caches
only see data writes and E→M upgrades, the bus is only reset in its output
fields, and posted requests carry BusRd or BusRdX. -/
theorem SysInv_wb_pipe (s : SimState) (h : SysInv s) :
    SysInv (phase_pipe (phase_wb s)) := by
  obtain ⟨hst, hc, hb, hr⟩ := h
  refine ⟨?_, ?_, ?_, ?_⟩
  · intro i k
    obtain ⟨-, hstk⟩ := core_cycle_cache_evol (wb_commit (s.cores i)) (s.requests i)
    rcases hstk k with he | ⟨-, he⟩
    · show (core_cycle (wb_commit (s.cores i)) (s.requests i)).1.cache.state k < 4
      rw [he, (wb_commit_frame (s.cores i)).1]
      exact hst i k
    · show (core_cycle (wb_commit (s.cores i)) (s.requests i)).1.cache.state k < 4
      rw [he]
      decide
  · exact CacheCoh_mono s.cores _ (fun i t k hx => (pipe_lineME s i t k).1 hx)
      (fun i t k hx => (pipe_lineNonI s i t k).1 hx)
      (fun i t k hx => pipe_lineE_rev s i t k hx) hc
  · intro hp
    have hp2 : (reset_bus_out s.bus).phase ≠ 0 := hp
    rw [(reset_bus_out_fields s.bus).1] at hp2
    obtain ⟨hcmd, hrdx, hrd⟩ := hb hp2
    refine ⟨hcmd, ?_, ?_⟩
    · intro hx j hj hN
      exact hrdx hx j hj ((pipe_lineNonI s j _ _).1 hN)
    · intro hx
      refine ⟨fun j hj hM => (hrd hx).1 j hj ((pipe_lineME s j _ _).1 hM),
        fun hsh j hj hN => (hrd hx).2 hsh j hj ((pipe_lineNonI s j _ _).1 hN)⟩
  · intro i ha
    rcases core_cycle_slot (wb_commit (s.cores i)) (s.requests i) with he | ⟨-, hcmd2, -, -⟩
    · have he2 : (phase_pipe (phase_wb s)).requests i = s.requests i := he
      rw [he2] at ha ⊢
      exact hr i ha
    · exact hcmd2

theorem bus_drive_keeps (b : BusState) :
    (bus_drive b).cmd = b.cmd ∧ (bus_drive b).origin = b.origin ∧
    (bus_drive b).addr = b.addr ∧ (bus_drive b).shared = b.shared ∧
    ((bus_drive b).phase = 0 ↔ b.phase = 0) := by
  unfold bus_drive
  split_ifs with h1 h2
  · exact ⟨rfl, rfl, rfl, rfl, Iff.rfl⟩
  · obtain ⟨hp, -, -⟩ := h2
    refine ⟨rfl, rfl, rfl, rfl, ?_⟩
    constructor
    · intro hh
      exact absurd hh (by decide)
    · intro hh
      omega
  · exact ⟨rfl, rfl, rfl, rfl, Iff.rfl⟩

/-- The bus-output phase preserves the system invariant. -/
theorem SysInv_drive (s : SimState) (h : SysInv s) : SysInv (phase_drive s) := by
  obtain ⟨hst, hc, hb, hr⟩ := h
  refine ⟨hst, hc, ?_, hr⟩
  intro hp
  obtain ⟨k1, k2, k3, k4, k5⟩ := bus_drive_keeps s.bus
  have hp2 : s.bus.phase ≠ 0 := fun h0 => hp (k5.mpr h0)
  obtain ⟨hcmd, hrdx, hrd⟩ := hb hp2
  simp only [phase_drive]
  rw [k1, k2, k3, k4]
  exact ⟨hcmd, hrdx, hrd⟩

/-- Reading a single written line of a cache. -/
theorem line_after_set (c : Cache) (kx t v : Nat) :
    (lineNonI ({ c with state := Function.update c.state kx v } : Cache) t kx ↔
      (c.tag kx = t ∧ v ≠ MESI_I)) ∧
    (lineME ({ c with state := Function.update c.state kx v } : Cache) t kx ↔
      (c.tag kx = t ∧ (v = MESI_M ∨ v = MESI_E))) := by
  have hs : ({ c with state := Function.update c.state kx v } : Cache).state kx = v :=
    Function.update_same _ _ _
  unfold lineNonI lineME
  rw [hs]
  exact ⟨Iff.rfl, Iff.rfl⟩

/-- After the snoop, no non-origin cache holds the requested block in a state
that violates the new transaction: non-Invalid copies are gone on BusRdX, and
M/E copies are gone on BusRd. -/
theorem snoop_result_line (bus : BusState) (req : BusRequest) (cores : Fin 4 → Core)
    (mem : Nat → Nat) (hstok : StOK cores) (j : Fin 4) (hj : (j : Nat) ≠ req.origin) :
    (req.cmd = BUS_RDX →
      ¬ lineNonI ((start_bus_transaction bus req cores mem).2 j).cache
        (cache_tag req.addr) (cache_index req.addr)) ∧
    (req.cmd = BUS_RD →
      ¬ lineME ((start_bus_transaction bus req cores mem).2 j).cache
        (cache_tag req.addr) (cache_index req.addr)) := by
  have hkey := start_bus_cache bus req cores mem j
  by_cases hnm : lineNonI (cores j).cache (cache_tag req.addr) (cache_index req.addr)
  · obtain ⟨htag, hsne⟩ := hnm
    by_cases hM : (cores j).cache.state (cache_index req.addr) = MESI_M
    · have hc2 : ((start_bus_transaction bus req cores mem).2 j).cache =
          { (cores j).cache with
              state := Function.update (cores j).cache.state (cache_index req.addr)
                (if req.cmd = BUS_RD then MESI_S else MESI_I) } := by
        rw [hkey, apply_snoop_M _ _ _ _ _ _ hj htag hM]
      rw [hc2]
      constructor
      · intro hcmd
        rw [(line_after_set (cores j).cache (cache_index req.addr) (cache_tag req.addr)
          _).1]
        rintro ⟨-, hv⟩
        exact hv (by rw [if_neg (by rw [hcmd]; decide)])
      · intro hcmd
        rw [(line_after_set (cores j).cache (cache_index req.addr) (cache_tag req.addr)
          _).2]
        rintro ⟨-, hv⟩
        rw [if_pos hcmd] at hv
        rcases hv with hv | hv <;> revert hv <;> decide
    · by_cases hE : (cores j).cache.state (cache_index req.addr) = MESI_E
      · have hc2 : ((start_bus_transaction bus req cores mem).2 j).cache =
            { (cores j).cache with
                state := Function.update (cores j).cache.state (cache_index req.addr)
                  (if req.cmd = BUS_RD then MESI_S else MESI_I) } := by
          rw [hkey, apply_snoop_E _ _ _ _ _ _ hj htag hE]
        rw [hc2]
        constructor
        · intro hcmd
          rw [(line_after_set (cores j).cache (cache_index req.addr) (cache_tag req.addr)
            _).1]
          rintro ⟨-, hv⟩
          exact hv (by rw [if_neg (by rw [hcmd]; decide)])
        · intro hcmd
          rw [(line_after_set (cores j).cache (cache_index req.addr) (cache_tag req.addr)
            _).2]
          rintro ⟨-, hv⟩
          rw [if_pos hcmd] at hv
          rcases hv with hv | hv <;> revert hv <;> decide
      · have hS : (cores j).cache.state (cache_index req.addr) = MESI_S := by
          have h4 := hstok j (cache_index req.addr)
          simp only [MESI_I, MESI_S, MESI_E, MESI_M] at hsne hM hE ⊢
          omega
        constructor
        · intro hcmd
          have hc2 : ((start_bus_transaction bus req cores mem).2 j).cache =
              { (cores j).cache with
                  state := Function.update (cores j).cache.state (cache_index req.addr)
                    MESI_I } := by
            rw [hkey, apply_snoop_S_rdx _ _ _ _ _ _ hj htag hS hcmd]
          rw [hc2,
            (line_after_set (cores j).cache (cache_index req.addr) (cache_tag req.addr)
              _).1]
          rintro ⟨-, hv⟩
          exact hv rfl
        · intro hcmd
          have hc2 : ((start_bus_transaction bus req cores mem).2 j).cache =
              (cores j).cache := by
            rw [hkey, apply_snoop_S_rd _ _ _ _ _ _ hj htag hS (by rw [hcmd]; decide)]
          rw [hc2]
          rintro ⟨-, hv⟩
          rw [hS] at hv
          rcases hv with hv | hv <;> revert hv <;> decide
  · have hc2 : ((start_bus_transaction bus req cores mem).2 j).cache =
        (cores j).cache := by
      rw [hkey, apply_snoop_nomatch _ _ _ _ _ _ hj hnm]
    rw [hc2]
    refine ⟨fun _ hN => hnm hN, fun _ hM2 => hnm ⟨hM2.1, ?_⟩⟩
    rcases hM2.2 with hv | hv <;> rw [hv] <;> decide

/-- The arbitration phase preserves the system invariant: when a transaction
starts, the snoop demotions keep coherence and establish the bus facts. -/
theorem SysInv_arb (s : SimState) (h : SysInv s) : SysInv (phase_arb s) := by
  obtain ⟨hst, hc, hb, hr⟩ := h
  by_cases hp : s.bus.phase = 0
  · rcases hw : arb_choose s.requests s.rr_next with _ | w
    · unfold phase_arb
      rw [if_pos hp, hw]
      exact ⟨hst, hc, hb, hr⟩
    · have hA := phase_arb_start s w hp hw
      have hcmd := hr w (arb_choose_active s.requests s.rr_next w hw)
      rw [hA]
      refine ⟨?_, ?_, ?_, ?_⟩
      · intro i k
        show ((start_bus_transaction s.bus (s.requests w) s.cores s.mem).2 i).cache.state
          k < 4
        rw [start_bus_cache]
        obtain ⟨-, hstk⟩ := apply_snoop_demote (s.cores i).cache (i : Nat)
          (s.requests w).origin (s.requests w).cmd (s.requests w).addr
          { shared := 0, provider := -1, block := fun _ => 0 }
        rcases hstk k with he | ⟨he, -⟩ | he <;> rw [he]
        · exact hst i k
        · decide
        · decide
      · refine CacheCoh_mono s.cores _ ?_ ?_ ?_ hc
        all_goals
          intro i t k hx
        all_goals
          have hkey := start_bus_cache s.bus (s.requests w) s.cores s.mem i
        all_goals
          obtain ⟨hdt, hds⟩ := apply_snoop_demote (s.cores i).cache (i : Nat)
            (s.requests w).origin (s.requests w).cmd (s.requests w).addr
            { shared := 0, provider := -1, block := fun _ => 0 }
        · refine (demote_lines _ _ hdt hds t k).1 ?_
          rw [← hkey]
          exact hx
        · refine (demote_lines _ _ hdt hds t k).2.1 ?_
          rw [← hkey]
          exact hx
        · refine (demote_lines _ _ hdt hds t k).2.2 ?_
          rw [← hkey]
          exact hx
      · intro _
        refine ⟨hcmd, ?_, ?_⟩
        · intro hx j hj
          exact (snoop_result_line s.bus (s.requests w) s.cores s.mem hst j hj).1 hx
        · intro hx
          refine ⟨fun j hj =>
            (snoop_result_line s.bus (s.requests w) s.cores s.mem hst j hj).2 hx,
            fun hsh j hj hN => ?_⟩
          have hiff := (start_bus_shared_iff s.bus (s.requests w) s.cores s.mem).1
          have hnEx : ¬ ∃ i : Fin 4, (i : Nat) ≠ (s.requests w).origin ∧
              lineNonI (s.cores i).cache (cache_tag (s.requests w).addr)
                (cache_index (s.requests w).addr) :=
            fun hex => (hiff.2 hex) hsh
          have hkey := start_bus_cache s.bus (s.requests w) s.cores s.mem j
          obtain ⟨hdt, hds⟩ := apply_snoop_demote (s.cores j).cache (j : Nat)
            (s.requests w).origin (s.requests w).cmd (s.requests w).addr
            { shared := 0, provider := -1, block := fun _ => 0 }
          refine hnEx ⟨j, hj, (demote_lines _ _ hdt hds _ _).2.1 ?_⟩
          rw [← hkey]
          exact hN
      · intro i ha
        rcases Decidable.em (i = w) with hiw | hiw
        · exfalso
          subst hiw
          have ha2 : ((Function.update s.requests i
              { s.requests i with active := false }) i).active = true := ha
          rw [Function.update_same] at ha2
          simp at ha2
        · have he : (Function.update s.requests w
              { s.requests w with active := false }) i = s.requests i :=
            Function.update_noteq hiw _ _
          show ((Function.update s.requests w
            { s.requests w with active := false }) i).cmd = BUS_RD ∨
            ((Function.update s.requests w
              { s.requests w with active := false }) i).cmd = BUS_RDX
          rw [he]
          have ha2 : ((Function.update s.requests w
              { s.requests w with active := false }) i).active = true := ha
          rw [he] at ha2
          exact hr i ha2
  · unfold phase_arb
    rw [if_neg hp]
    exact ⟨hst, hc, hb, hr⟩

theorem complete_transaction_cores (b : BusState) (cs : Fin 4 → Core) (m : Nat → Nat)
    (h4 : b.origin < 4) :
    (complete_transaction b cs m).1 =
      Function.update cs ⟨b.origin, h4⟩
        ({ cs ⟨b.origin, h4⟩ with
        cache := (fill_cache_line (cs ⟨b.origin, h4⟩).cache
          (cache_index (block_base b.addr)) (cache_tag (block_base b.addr)) b.block
          (if b.cmd = BUS_RD then (if b.shared ≠ 0 then MESI_S else MESI_E) else MESI_M)
          (write_block m (block_base b.addr) b.block)).1,
        mem := if (cs ⟨b.origin, h4⟩).mem.valid && (cs ⟨b.origin, h4⟩).mem.waiting
          then { (cs ⟨b.origin, h4⟩).mem with waiting := false }
          else (cs ⟨b.origin, h4⟩).mem }) := by
  unfold complete_transaction
  rw [dif_pos h4]

/-- Filling one line of one cache with tag tg and state ns at index kx keeps
coherence, provided no peer holds that line in M/E and — when the new state is
E or M — no peer holds it at all. -/
theorem CacheCoh_fill (cs : Fin 4 → Core) (o : Fin 4) (co2 : Core) (kx tg ns : Nat)
    (htag2 : co2.cache.tag = Function.update (cs o).cache.tag kx tg)
    (hst2 : co2.cache.state = Function.update (cs o).cache.state kx ns)
    (hc : CacheCoh cs)
    (hpeerME : ∀ j : Fin 4, j ≠ o → ¬ lineME (cs j).cache tg kx)
    (hpeerNonI : (ns = MESI_E ∨ ns = MESI_M) →
      ∀ j : Fin 4, j ≠ o → ¬ lineNonI (cs j).cache tg kx) :
    CacheCoh (Function.update cs o co2) := by
  have hcs : ∀ j : Fin 4, j ≠ o → (Function.update cs o co2) j = cs j :=
    fun j hj => Function.update_noteq hj _ _
  have hco : (Function.update cs o co2) o = co2 := Function.update_same _ _ _
  intro t k
  by_cases hk : k = kx
  · subst hk
    by_cases ht : t = tg
    · subst ht
      have htagk : co2.cache.tag k = t := by
        rw [htag2]; exact Function.update_same _ _ _
      have hstk : co2.cache.state k = ns := by
        rw [hst2]; exact Function.update_same _ _ _
      constructor
      · intro i j hij hMEi hMEj
        by_cases hio : i = o
        · subst hio
          rw [hco] at hMEi
          have hjo : j ≠ i := Ne.symm hij
          have hnsME : ns = MESI_E ∨ ns = MESI_M := by
            rcases hMEi.2 with hv | hv
            · right; rw [← hstk]; exact hv
            · left; rw [← hstk]; exact hv
          rw [hcs j hjo] at hMEj
          exact hpeerNonI hnsME j hjo
            ⟨hMEj.1, by rcases hMEj.2 with hv | hv <;> rw [hv] <;> decide⟩
        · by_cases hjo : j = o
          · subst hjo
            rw [hcs i hio] at hMEi
            exact hpeerME i hio hMEi
          · rw [hcs i hio] at hMEi
            rw [hcs j hjo] at hMEj
            exact (hc t k).1 i j hij hMEi hMEj
      · intro i j hij hEi hNj
        by_cases hio : i = o
        · subst hio
          rw [hco] at hEi
          have hnsE : ns = MESI_E := by rw [← hstk]; exact hEi.2
          have hjo : j ≠ i := Ne.symm hij
          rw [hcs j hjo] at hNj
          exact hpeerNonI (Or.inl hnsE) j hjo hNj
        · rw [hcs i hio] at hEi
          exact hpeerME i hio ⟨hEi.1, Or.inr hEi.2⟩
    · have htagk : co2.cache.tag k = tg := by
        rw [htag2]; exact Function.update_same _ _ _
      constructor
      · intro i j hij hMEi hMEj
        by_cases hio : i = o
        · subst hio
          rw [hco] at hMEi
          exact ht (by rw [← hMEi.1]; exact htagk)
        · by_cases hjo : j = o
          · subst hjo
            rw [hco] at hMEj
            exact ht (by rw [← hMEj.1]; exact htagk)
          · rw [hcs i hio] at hMEi
            rw [hcs j hjo] at hMEj
            exact (hc t k).1 i j hij hMEi hMEj
      · intro i j hij hEi hNj
        by_cases hio : i = o
        · subst hio
          rw [hco] at hEi
          exact ht (by rw [← hEi.1]; exact htagk)
        · by_cases hjo : j = o
          · subst hjo
            rw [hco] at hNj
            exact ht (by rw [← hNj.1]; exact htagk)
          · rw [hcs i hio] at hEi
            rw [hcs j hjo] at hNj
            exact (hc t k).2 i j hij hEi hNj
  · have htagk : co2.cache.tag k = (cs o).cache.tag k := by
      rw [htag2]; exact Function.update_noteq hk _ _
    have hstk : co2.cache.state k = (cs o).cache.state k := by
      rw [hst2]; exact Function.update_noteq hk _ _
    have fME : ∀ x : Fin 4,
        lineME ((Function.update cs o co2) x).cache t k → lineME (cs x).cache t k := by
      intro x hx
      by_cases hxo : x = o
      · subst hxo
        rw [hco] at hx
        exact ⟨by rw [← htagk]; exact hx.1, by rw [← hstk]; exact hx.2⟩
      · rw [hcs x hxo] at hx
        exact hx
    have fNonI : ∀ x : Fin 4,
        lineNonI ((Function.update cs o co2) x).cache t k →
          lineNonI (cs x).cache t k := by
      intro x hx
      by_cases hxo : x = o
      · subst hxo
        rw [hco] at hx
        exact ⟨by rw [← htagk]; exact hx.1, by rw [← hstk]; exact hx.2⟩
      · rw [hcs x hxo] at hx
        exact hx
    have fE : ∀ x : Fin 4,
        lineE ((Function.update cs o co2) x).cache t k → lineE (cs x).cache t k := by
      intro x hx
      by_cases hxo : x = o
      · subst hxo
        rw [hco] at hx
        exact ⟨by rw [← htagk]; exact hx.1, by rw [← hstk]; exact hx.2⟩
      · rw [hcs x hxo] at hx
        exact hx
    exact ⟨fun i j hij hMEi hMEj => (hc t k).1 i j hij (fME i hMEi) (fME j hMEj),
      fun i j hij hEi hNj => (hc t k).2 i j hij (fE i hEi) (fNonI j hNj)⟩

/-- Completing a transaction keeps states in range and keeps coherence, using
the facts the snoop established when the transaction started. -/
theorem complete_preserves (b : BusState) (cs : Fin 4 → Core) (m : Nat → Nat)
    (hst : StOK cs) (hc : CacheCoh cs)
    (hcmd : b.cmd = BUS_RD ∨ b.cmd = BUS_RDX)
    (hrdx : b.cmd = BUS_RDX → ∀ j : Fin 4, (j : Nat) ≠ b.origin →
      ¬ lineNonI (cs j).cache (cache_tag b.addr) (cache_index b.addr))
    (hrd : b.cmd = BUS_RD →
      (∀ j : Fin 4, (j : Nat) ≠ b.origin →
        ¬ lineME (cs j).cache (cache_tag b.addr) (cache_index b.addr)) ∧
      (b.shared = 0 → ∀ j : Fin 4, (j : Nat) ≠ b.origin →
        ¬ lineNonI (cs j).cache (cache_tag b.addr) (cache_index b.addr))) :
    StOK (complete_transaction b cs m).1 ∧ CacheCoh (complete_transaction b cs m).1 := by
  by_cases h4 : b.origin < 4
  · rw [complete_transaction_cores b cs m h4]
    have htag2 : ({ cs ⟨b.origin, h4⟩ with
        cache := (fill_cache_line (cs ⟨b.origin, h4⟩).cache
          (cache_index (block_base b.addr)) (cache_tag (block_base b.addr)) b.block
          (if b.cmd = BUS_RD then (if b.shared ≠ 0 then MESI_S else MESI_E) else MESI_M)
          (write_block m (block_base b.addr) b.block)).1,
        mem := if (cs ⟨b.origin, h4⟩).mem.valid && (cs ⟨b.origin, h4⟩).mem.waiting
          then { (cs ⟨b.origin, h4⟩).mem with waiting := false }
          else (cs ⟨b.origin, h4⟩).mem } : Core).cache.tag =
        Function.update (cs ⟨b.origin, h4⟩).cache.tag (cache_index b.addr)
          (cache_tag b.addr) := by
      rw [show ({ cs ⟨b.origin, h4⟩ with
        cache := (fill_cache_line (cs ⟨b.origin, h4⟩).cache
          (cache_index (block_base b.addr)) (cache_tag (block_base b.addr)) b.block
          (if b.cmd = BUS_RD then (if b.shared ≠ 0 then MESI_S else MESI_E) else MESI_M)
          (write_block m (block_base b.addr) b.block)).1,
        mem := if (cs ⟨b.origin, h4⟩).mem.valid && (cs ⟨b.origin, h4⟩).mem.waiting
          then { (cs ⟨b.origin, h4⟩).mem with waiting := false }
          else (cs ⟨b.origin, h4⟩).mem } : Core).cache =
        (fill_cache_line (cs ⟨b.origin, h4⟩).cache
          (cache_index (block_base b.addr)) (cache_tag (block_base b.addr)) b.block
          (if b.cmd = BUS_RD then (if b.shared ≠ 0 then MESI_S else MESI_E) else MESI_M)
          (write_block m (block_base b.addr) b.block)).1 from rfl]
      rw [fill_cache_line_tag, cache_index_block_base, cache_tag_block_base,
        Nat.mod_eq_of_lt (cache_tag_lt b.addr)]
    have hst2 : ({ cs ⟨b.origin, h4⟩ with
        cache := (fill_cache_line (cs ⟨b.origin, h4⟩).cache
          (cache_index (block_base b.addr)) (cache_tag (block_base b.addr)) b.block
          (if b.cmd = BUS_RD then (if b.shared ≠ 0 then MESI_S else MESI_E) else MESI_M)
          (write_block m (block_base b.addr) b.block)).1,
        mem := if (cs ⟨b.origin, h4⟩).mem.valid && (cs ⟨b.origin, h4⟩).mem.waiting
          then { (cs ⟨b.origin, h4⟩).mem with waiting := false }
          else (cs ⟨b.origin, h4⟩).mem } : Core).cache.state =
        Function.update (cs ⟨b.origin, h4⟩).cache.state (cache_index b.addr)
          (if b.cmd = BUS_RD then (if b.shared ≠ 0 then MESI_S else MESI_E) else MESI_M) := by
      rw [show ({ cs ⟨b.origin, h4⟩ with
        cache := (fill_cache_line (cs ⟨b.origin, h4⟩).cache
          (cache_index (block_base b.addr)) (cache_tag (block_base b.addr)) b.block
          (if b.cmd = BUS_RD then (if b.shared ≠ 0 then MESI_S else MESI_E) else MESI_M)
          (write_block m (block_base b.addr) b.block)).1,
        mem := if (cs ⟨b.origin, h4⟩).mem.valid && (cs ⟨b.origin, h4⟩).mem.waiting
          then { (cs ⟨b.origin, h4⟩).mem with waiting := false }
          else (cs ⟨b.origin, h4⟩).mem } : Core).cache =
        (fill_cache_line (cs ⟨b.origin, h4⟩).cache
          (cache_index (block_base b.addr)) (cache_tag (block_base b.addr)) b.block
          (if b.cmd = BUS_RD then (if b.shared ≠ 0 then MESI_S else MESI_E) else MESI_M)
          (write_block m (block_base b.addr) b.block)).1 from rfl]
      rw [fill_cache_line_state, cache_index_block_base]
    have hns : (if b.cmd = BUS_RD then (if b.shared ≠ 0 then MESI_S else MESI_E) else MESI_M) = MESI_S ∨ (if b.cmd = BUS_RD then (if b.shared ≠ 0 then MESI_S else MESI_E) else MESI_M) = MESI_E ∨
        (if b.cmd = BUS_RD then (if b.shared ≠ 0 then MESI_S else MESI_E) else MESI_M) = MESI_M := by
      rcases hcmd with h1 | h1
      · rw [if_pos h1]
        by_cases hsh : b.shared ≠ 0
        · rw [if_pos hsh]
          exact Or.inl rfl
        · rw [if_neg hsh]
          exact Or.inr (Or.inl rfl)
      · rw [if_neg (by rw [h1]; decide)]
        exact Or.inr (Or.inr rfl)
    have hvo : ∀ j : Fin 4, j ≠ (⟨b.origin, h4⟩ : Fin 4) → (j : Nat) ≠ b.origin := by
      intro j hj hv
      exact hj (Fin.eq_of_val_eq hv)
    have hpeerME : ∀ j : Fin 4, j ≠ (⟨b.origin, h4⟩ : Fin 4) →
        ¬ lineME (cs j).cache (cache_tag b.addr) (cache_index b.addr) := by
      intro j hj hME
      rcases hcmd with h1 | h1
      · exact (hrd h1).1 j (hvo j hj) hME
      · exact hrdx h1 j (hvo j hj)
          ⟨hME.1, by rcases hME.2 with hv | hv <;> rw [hv] <;> decide⟩
    have hpeerNonI : ((if b.cmd = BUS_RD then (if b.shared ≠ 0 then MESI_S else MESI_E) else MESI_M) = MESI_E ∨ (if b.cmd = BUS_RD then (if b.shared ≠ 0 then MESI_S else MESI_E) else MESI_M) = MESI_M) →
        ∀ j : Fin 4, j ≠ (⟨b.origin, h4⟩ : Fin 4) →
          ¬ lineNonI (cs j).cache (cache_tag b.addr) (cache_index b.addr) := by
      intro hEM j hj hN
      rcases hcmd with h1 | h1
      · by_cases hsh : b.shared ≠ 0
        · have hS : (if b.cmd = BUS_RD then (if b.shared ≠ 0 then MESI_S else MESI_E) else MESI_M) = MESI_S := by rw [if_pos h1, if_pos hsh]
          rcases hEM with he | he <;> (rw [hS] at he; revert he; decide)
        · have hsh0 : b.shared = 0 := by omega
          exact (hrd h1).2 hsh0 j (hvo j hj) hN
      · exact hrdx h1 j (hvo j hj) hN
    refine ⟨?_, CacheCoh_fill cs ⟨b.origin, h4⟩ _ (cache_index b.addr) (cache_tag b.addr)
      (if b.cmd = BUS_RD then (if b.shared ≠ 0 then MESI_S else MESI_E) else MESI_M) htag2 hst2 hc hpeerME hpeerNonI⟩
    intro i k
    by_cases hio : i = (⟨b.origin, h4⟩ : Fin 4)
    · subst hio
      rw [Function.update_same]
      show ({ cs ⟨b.origin, h4⟩ with
        cache := (fill_cache_line (cs ⟨b.origin, h4⟩).cache
          (cache_index (block_base b.addr)) (cache_tag (block_base b.addr)) b.block
          (if b.cmd = BUS_RD then (if b.shared ≠ 0 then MESI_S else MESI_E) else MESI_M)
          (write_block m (block_base b.addr) b.block)).1,
        mem := if (cs ⟨b.origin, h4⟩).mem.valid && (cs ⟨b.origin, h4⟩).mem.waiting
          then { (cs ⟨b.origin, h4⟩).mem with waiting := false }
          else (cs ⟨b.origin, h4⟩).mem } : Core).cache.state k < 4
      rw [hst2]
      rcases Decidable.em (k = cache_index b.addr) with hk | hk
      · subst hk
        rw [Function.update_same]
        rcases hns with h | h | h <;> rw [h] <;> decide
      · rw [Function.update_noteq hk]
        exact hst _ k
    · rw [Function.update_noteq hio]
      exact hst i k
  · have he : (complete_transaction b cs m).1 = cs := by
      unfold complete_transaction
      rw [dif_neg h4]
    rw [he]
    exact ⟨hst, hc⟩

/-- The timing-advance phase preserves the system invariant; on completion the
coherence proof uses the snoop facts recorded in BusOK. -/
theorem SysInv_adv (s : SimState) (h : SysInv s) : SysInv (phase_adv s) := by
  obtain ⟨hst, hc, hb, hr⟩ := h
  unfold phase_adv bus_advance
  dsimp only
  split_ifs with h1 h2 h3
  · refine ⟨hst, hc, ?_, hr⟩
    intro hp
    have hp2 : s.bus.phase ≠ 0 := hp
    exact hb hp2
  · obtain ⟨hcmd, hrdx, hrd⟩ := hb (by rw [h2.1]; decide)
    obtain ⟨hst2, hc2⟩ := complete_preserves { s.bus with index := s.bus.index + 1 }
      s.cores s.mem hst hc hcmd hrdx hrd
    refine ⟨hst2, hc2, ?_, hr⟩
    intro hp
    exact absurd rfl hp
  · refine ⟨hst, hc, ?_, hr⟩
    intro hp
    have hp2 : s.bus.phase ≠ 0 := hp
    exact hb hp2
  · exact ⟨hst, hc, hb, hr⟩

/-- The reset state satisfies the system invariant: all lines Invalid, bus
idle, no requests pending. -/
theorem SysInv_init (imems : Fin 4 → Nat → Nat) (mem0 : Nat → Nat) :
    SysInv (init_state imems mem0) := by
  refine ⟨?_, ?_, ?_, ?_⟩
  · intro i k
    show MESI_I < 4
    decide
  · intro t k
    constructor
    · intro i j hij hME
      exfalso
      obtain ⟨-, hv⟩ := hME
      have h0 : ((init_state imems mem0).cores i).cache.state k = MESI_I := rfl
      rw [h0] at hv
      rcases hv with hv | hv <;> revert hv <;> decide
    · intro i j hij hE
      obtain ⟨-, hv⟩ := hE
      have h0 : ((init_state imems mem0).cores i).cache.state k = MESI_I := rfl
      rw [h0] at hv
      exact absurd hv (by decide)
  · intro hp
    exact absurd rfl hp
  · intro i ha
    have h0 : ((init_state imems mem0).requests i).active = false := rfl
    rw [h0] at ha
    exact absurd ha (by decide)

theorem reach_SysInv (imems : Fin 4 → Nat → Nat) (mem0 : Nat → Nat) (s : SimState)
    (h : Reach imems mem0 s) : SysInv s := by
  induction h with
  | init => exact SysInv_init imems mem0
  | step hr ih => exact SysInv_adv _ (SysInv_drive _ (SysInv_arb _ (SysInv_wb_pipe _ ih)))

/-- C3: invariant of every reachable simulation state: for any block address
(equivalently any tag t and index k), at most one cache holds a line with that
tag at that index in state M or E, and if any cache holds it in E, every other
cache holds it in I (has no non-Invalid copy of that line). -/
theorem c3_mesi_exclusivity (imems : Fin 4 → Nat → Nat) (mem0 : Nat → Nat)
    (s : SimState) (hs : Reach imems mem0 s) (t k : Nat) :
    (∀ i j : Fin 4, i ≠ j →
      lineME (s.cores i).cache t k → ¬ lineME (s.cores j).cache t k) ∧
    (∀ i j : Fin 4, i ≠ j →
      lineE (s.cores i).cache t k → ¬ lineNonI (s.cores j).cache t k) :=
  (reach_SysInv imems mem0 s hs).2.1 t k

/-- Witness for C3 at the reset state and the line of address 32. -/
theorem c3_mesi_exclusivity_witness :
    Reach (fun _ _ => 0) (fun _ => 0) (init_state (fun _ _ => 0) (fun _ => 0)) ∧
    ((∀ i j : Fin 4, i ≠ j →
       lineME ((init_state (fun _ _ => 0) (fun _ => 0)).cores i).cache
         (cache_tag 32) (cache_index 32) →
       ¬ lineME ((init_state (fun _ _ => 0) (fun _ => 0)).cores j).cache
         (cache_tag 32) (cache_index 32)) ∧
     (∀ i j : Fin 4, i ≠ j →
       lineE ((init_state (fun _ _ => 0) (fun _ => 0)).cores i).cache
         (cache_tag 32) (cache_index 32) →
       ¬ lineNonI ((init_state (fun _ _ => 0) (fun _ => 0)).cores j).cache
         (cache_tag 32) (cache_index 32))) :=
  ⟨Reach.init, c3_mesi_exclusivity (fun _ _ => 0) (fun _ => 0) _ Reach.init
    (cache_tag 32) (cache_index 32)⟩

end Sim
